import Mathlib

/-!
# curl/main.go : request builder and response parser

A shallow embedding of `src/curl/main.go`.

Go strings are immutable byte sequences; they are embedded as lists of byte
values (`GoString`).  A Go `map[string]string` is embedded as the list of its
entries in the order in which a `range` loop visits them; Go leaves that order
unspecified, so every statement about a map is made for an arbitrary entry
list.

`fmt.Sprintf` belongs to the Go standard library, not to this repository.  The
embedding fixes only the part of it that the program's own format text
reaches (literal text, `%s` applied to a string operand, `%d` applied to an
integer operand, and the trailing `%!(EXTRA ...)` report); every other
directive is handed to a parameter `slow`, about which nothing is assumed.

Two more things of the standard library and the runtime are parameters: the
Unicode case mapping that `strings.ToUpper` applies to text with a byte from
`0x80` on (`mapUpper`), and the allocation limit above which `make` panics
(`maxAlloc`).
-/

namespace Curl

/-- A Go string, as the sequence of its bytes. -/
abbrev GoString := List Nat

/-- UTF-8 encoding of one character. -/
def utf8Bytes (c : Char) : List Nat :=
  let n := c.toNat
  if n < 0x80 then [n]
  else if n < 0x800 then [0xC0 + n / 64, 0x80 + n % 64]
  else if n < 0x10000 then [0xE0 + n / 4096, 0x80 + (n / 64) % 64, 0x80 + n % 64]
  else [0xF0 + n / 262144, 0x80 + (n / 4096) % 64, 0x80 + (n / 64) % 64, 0x80 + n % 64]

/-- The Go string denoted by a source literal: the UTF-8 bytes of its text. -/
def go (s : String) : GoString := s.data.flatMap utf8Bytes

/-- Go's `len` on a string: the number of bytes. -/
def len (s : GoString) : Nat := s.length

/-! ## The fragment of `fmt.Sprintf` that the program relies on -/

/-- An operand of `Sprintf`: the program passes only strings and `int`s. -/
inductive Arg where
  | str (s : GoString)
  | int (i : Int)
  deriving DecidableEq, Repr

/-- The digit loop of `fmtInteger`: digits are produced from the least
significant one and placed in front of what is already there.  The first
argument is fuel. -/
def decimalAux : Nat → Nat → GoString → GoString
  | 0, _, acc => acc
  | f + 1, n, acc =>
    if n < 10 then (48 + n) :: acc else decimalAux f (n / 10) ((48 + n % 10) :: acc)

/-- Decimal digits of a natural number, most significant first (`0` gives `"0"`). -/
def decimal (n : Nat) : GoString := decimalAux (n + 1) n []

/-- The text `%d` prints for an integer. -/
def fmtInteger (i : Int) : GoString :=
  if i < 0 then 45 :: decimal i.natAbs else decimal i.natAbs

/-- What one directive outside the modelled fragment does: the text it prints,
the number of format bytes it takes after the `%`, and the operand cursor and
the `reordered` mark it leaves behind. -/
structure Directive where
  out : GoString
  consumed : Nat
  argNum : Nat
  reordered : Bool

/-- The standard library's handling of every directive outside the modelled
fragment, given the format text after the `%`, the operands, the operand
cursor and the `reordered` mark. -/
abbrev SlowPath := GoString → List Arg → Nat → Bool → Directive

/-- The text printed for an operand by the verb `%v`. -/
def printArgV : Arg → GoString
  | .str s => s
  | .int i => fmtInteger i

/-- The Go type name of an operand. -/
def typeName : Arg → GoString
  | .str _ => go "string"
  | .int _ => go "int"

/-- The items of the `%!(EXTRA ...)` report, separated by `", "`. -/
def extraItems : List Arg → GoString
  | [] => []
  | [x] => typeName x ++ [61] ++ printArgV x
  | x :: y :: rest => typeName x ++ [61] ++ printArgV x ++ go ", " ++ extraItems (y :: rest)

/-- The closing check of `doPrintf`: operands left over are reported, unless
the operands were accessed out of order. -/
def extraArgs (a : List Arg) (argNum : Nat) (reordered : Bool) : GoString :=
  if !reordered && argNum < a.length then
    go "%!(EXTRA " ++ extraItems (a.drop argNum) ++ [41]
  else []

/-- The format loop of `fmt.(*pp).doPrintf`.  The first argument is fuel; the
byte count of the format is always enough, as every step takes at least one
byte of it. -/
def doPrintf (slow : SlowPath) (a : List Arg) : Nat → GoString → Nat → Bool → GoString
  | 0, _, argNum, reordered => extraArgs a argNum reordered
  | _ + 1, [], argNum, reordered => extraArgs a argNum reordered
  | n + 1, c :: rest, argNum, reordered =>
    if c ≠ 37 then c :: doPrintf slow a n rest argNum reordered
    else
      match rest, a.get? argNum with
      | 115 :: rest', some (.str s) => s ++ doPrintf slow a n rest' (argNum + 1) reordered
      | 100 :: rest', some (.int i) =>
        fmtInteger i ++ doPrintf slow a n rest' (argNum + 1) reordered
      | _, _ =>
        let d := slow rest a argNum reordered
        d.out ++ doPrintf slow a n (rest.drop d.consumed) d.argNum d.reordered

/-- Go's `fmt.Sprintf`. -/
def Sprintf (slow : SlowPath) (format : GoString) (a : List Arg) : GoString :=
  doPrintf slow a format.length format 0 false

/-! ## The program -/

/-- The type `headers`: a map from header name to header value. -/
structure headers where
  m : List (GoString × GoString)
  deriving DecidableEq, Repr

/-- The method `(*headers).String`: one `Sprintf("%s:%s\r\n", k, v)` per entry. -/
def headers.String (slow : SlowPath) (h : headers) : GoString :=
  h.m.foldl (fun str kv => str ++ Sprintf slow (go "%s:%s\r\n") [.str kv.1, .str kv.2]) []

/-- The constant `http.MethodPost`. -/
def MethodPost : GoString := go "POST"

/-- The function `makePayload`. -/
def makePayload (slow : SlowPath) (method uri host body : GoString) (hs : headers) :
    GoString :=
  let fmtStr := go "%s %s HTTP/1.1\r\nHost: %s\r\n"
  let fmtStr := fmtStr ++ hs.String slow
  let fmtStr :=
    if method = MethodPost then
      fmtStr ++ (go "Content-Length: %d\r\n" ++ go "Connection: close\r\n" ++ go "\r\n" ++ go "%s")
    else fmtStr
  let fmtStr := fmtStr ++ go "\r\n"
  if method = MethodPost then
    Sprintf slow fmtStr [.str method, .str uri, .str host, .int (len body), .str body]
  else
    Sprintf slow fmtStr [.str method, .str uri, .str host]

/-- A placeholder for the directives outside the modelled fragment, for
evaluating the program on inputs whose format text has no such directive. -/
def noSlow : SlowPath := fun _ _ argNum reordered => ⟨[], 0, argNum, reordered⟩

/-- The text of one header line, as `(*headers).String` formats an entry. -/
def headerLine (kv : GoString × GoString) : GoString := kv.1 ++ 58 :: kv.2 ++ [13, 10]

/-- The header set has no `%` in any name or value. -/
def percentFree (hs : headers) : Prop := ∀ kv ∈ hs.m, 37 ∉ kv.1 ∧ 37 ∉ kv.2

instance (hs : headers) : Decidable (percentFree hs) := by
  unfold percentFree; infer_instance

/-- The bytes that follow the first occurrence of CR LF CR LF (the first blank
line) in a message, empty when there is none. -/
def afterBlankLine : GoString → GoString
  | [] => []
  | c :: rest =>
    if [13, 10, 13, 10] <+: c :: rest then rest.drop 3 else afterBlankLine rest

/-! ## String helpers from package `strings` -/

/-- The table `asciiSpace`: tab, LF, VT, FF, CR and the blank. -/
def asciiSpace (c : Nat) : Bool :=
  c = 9 || c = 10 || c = 11 || c = 12 || c = 13 || c = 32

/-- The byte string is the UTF-8 encoding of one character for which
`unicode.IsSpace` holds: an ASCII space, U+0085, U+00A0, U+1680,
U+2000 to U+200A, U+2028, U+2029, U+202F, U+205F or U+3000. -/
def isSpaceRune : GoString → Bool
  | [c] => asciiSpace c
  | [a, b] => a = 0xC2 && (b = 0x85 || b = 0xA0)
  | [a, b, c] =>
    (a = 0xE1 && b = 0x9A && c = 0x80)
      || (a = 0xE2 && b = 0x80 && ((0x80 ≤ c && c ≤ 0x8A) || c = 0xA8 || c = 0xA9 || c = 0xAF))
      || (a = 0xE2 && b = 0x81 && c = 0x9F)
      || (a = 0xE3 && b = 0x80 && c = 0x80)
  | _ => false

/-- Byte width of the white-space character at the front of the string, `0`
when the string does not start with one. -/
def leadingSpace (s : GoString) : Nat :=
  if isSpaceRune (s.take 1) then 1
  else if isSpaceRune (s.take 2) then 2
  else if isSpaceRune (s.take 3) then 3
  else 0

/-- Byte width of the white-space character at the end of the string, `0`
when the string does not end with one. -/
def trailingSpace (s : GoString) : Nat :=
  if isSpaceRune (s.drop (s.length - 1)) then 1
  else if isSpaceRune (s.drop (s.length - 2)) then 2
  else if isSpaceRune (s.drop (s.length - 3)) then 3
  else 0

/-- Removal of leading white space; the first argument is fuel. -/
def trimLeftAux : Nat → GoString → GoString
  | 0, s => s
  | f + 1, s => if leadingSpace s = 0 then s else trimLeftAux f (s.drop (leadingSpace s))

/-- Removal of trailing white space; the first argument is fuel. -/
def trimRightAux : Nat → GoString → GoString
  | 0, s => s
  | f + 1, s =>
    if trailingSpace s = 0 then s else trimRightAux f (s.take (s.length - trailingSpace s))

/-- Go's `strings.TrimSpace`: leading white space is removed, then trailing
white space. -/
def TrimSpace (s : GoString) : GoString :=
  let t := trimLeftAux s.length s
  trimRightAux t.length t

/-- Split at the first occurrence of the byte `sep`. -/
def cut (sep : Nat) : GoString → Option (GoString × GoString)
  | [] => none
  | c :: rest =>
    if c = sep then some ([], rest)
    else (cut sep rest).map (fun p => (c :: p.1, p.2))

/-- Go's `strings.SplitN(s, sep, 2)` for a one-byte separator: the text before
and after the first separator, or the whole text alone when there is none. -/
def SplitN (s : GoString) (sep : Nat) : List GoString :=
  match cut sep s with
  | some (a, b) => [a, b]
  | none => [s]

/-! ## Maps -/

/-- The assignment `m[k] = v`: an entry with this key is overwritten, otherwise
a new entry is added. -/
def mapSet : List (GoString × GoString) → GoString → GoString → List (GoString × GoString)
  | [], k, v => [(k, v)]
  | (k', v') :: rest, k, v =>
    if k' = k then (k, v) :: rest else (k', v') :: mapSet rest k v

/-- The lookup `val, ok := m[k]`. -/
def mapGet : List (GoString × GoString) → GoString → Option GoString
  | [], _ => none
  | (k', v') :: rest, k => if k' = k then some v' else mapGet rest k

/-- The method `(*headers).Set`; it always returns `nil`, so only the updated
receiver is kept. -/
def headers.Set (h : headers) (value : GoString) : headers :=
  match SplitN value 58 with
  | [a, b] => ⟨mapSet h.m (TrimSpace a) (TrimSpace b)⟩
  | _ => h

/-- The lines of a text, split at every LF. -/
def splitLF : GoString → List GoString
  | [] => [[]]
  | c :: rest =>
    if c = 10 then [] :: splitLF rest
    else
      match splitLF rest with
      | [] => [[c]]
      | l :: ls => (c :: l) :: ls

/-- The error value `ErrMethodNotSupported` is the only error of the program's own. -/
inductive Error where
  | ErrMethodNotSupported
  deriving DecidableEq, Repr

/-- The variable `allowedMethods`. -/
def allowedMethods : List GoString := [go "GET", go "DELETE", go "POST", go "PUT"]

/-- A header set as the command line builds it: one `Set` call per `-H` flag,
starting from the zero value. -/
def headersOf (flags : List GoString) : headers :=
  flags.foldl headers.Set ⟨[]⟩

/-- Go's `strings.ToUpper`.  A string of ASCII bytes is mapped byte by byte; a
string with a byte from `0x80` on goes through `Map(unicode.ToUpper, s)`,
which rests on the Unicode case tables of the standard library and is the
parameter `mapUpper`. -/
def ToUpper (mapUpper : GoString → GoString) (s : GoString) : GoString :=
  if s.all (· < 128) then s.map (fun c => if 97 ≤ c ∧ c ≤ 122 then c - 32 else c)
  else mapUpper s

/-- The loop of `validateMethod` over the remaining allowed methods. -/
def validateLoop (mapUpper : GoString → GoString) (str : GoString) :
    List GoString → Option Error
  | [] => some .ErrMethodNotSupported
  | method :: rest =>
    if ToUpper mapUpper str = method then none else validateLoop mapUpper str rest

/-- The function `validateMethod`; `none` is the `nil` error. -/
def validateMethod (mapUpper : GoString → GoString) (str : GoString) : Option Error :=
  validateLoop mapUpper str allowedMethods

/-- A placeholder for the Unicode case mapping, for evaluating the program on
ASCII input, where it is not reached. -/
def noMapUpper : GoString → GoString := fun s => s

/-! ## The response parser -/

/-- The method `(*bufio.Reader).ReadString` on a connection that delivers the
given bytes and is then closed: the bytes up to and including the first
delimiter, whether the end of the stream (`io.EOF`) came before a delimiter,
and the bytes left in the reader. -/
def ReadString (r : GoString) (delim : Nat) : GoString × Bool × GoString :=
  match cut delim r with
  | some (a, b) => (a ++ [delim], false, b)
  | none => (r, true, [])

/-- The header loop of `main` (lines 115 to 132): the header map and the bytes
left in the reader when the loop is left.  The first argument is fuel; one
more than the byte count of the stream is always enough.  `io.EOF` from
`ReadString` is ignored, as in the source. -/
def headerLoop : Nat → GoString → List (GoString × GoString) →
    List (GoString × GoString) × GoString
  | 0, r, hdrs => (hdrs, r)
  | f + 1, r, hdrs =>
    let line := TrimSpace (ReadString r 10).1
    let r' := (ReadString r 10).2.2
    if line = [] then (hdrs, r')
    else
      match SplitN line 58 with
      | [a, b] => headerLoop f r' (mapSet hdrs (TrimSpace a) (TrimSpace b))
      | _ => headerLoop f r' hdrs

/-- The method `SkipSpace` of the scanner behind `fmt.Sscanf`: white space is
skipped and a line feed is an error (`none`).  The first argument is fuel. -/
def SkipSpace : Nat → GoString → Option GoString
  | 0, s => some s
  | f + 1, s =>
    if s.head? = some 10 then none
    else if leadingSpace s = 0 then some s
    else SkipSpace f (s.drop (leadingSpace s))

/-- The bytes that `scanNumber` accepts for the verb `%d`: the decimal digits
`0123456789`. -/
def acceptsDigit (c : Nat) : Bool := 48 ≤ c && c ≤ 57

/-- The value of a string of decimal digits. -/
def atoi (tok : GoString) : Nat := tok.foldl (fun a d => a * 10 + (d - 48)) 0

/-- The scan `fmt.Sscanf(val, "%d", &n)` with a 64-bit `int`: the number
stored in `n`, or `none` when the scan fails and `n` is left alone.  An
optional sign is followed by the longest run of decimal digits, where the scan
stops; the run must not be empty and must denote a number in the range of
`int64`. -/
def Sscanf (val : GoString) : Option Int :=
  match SkipSpace val.length val with
  | none => none
  | some [] => none
  | some (c :: rest) =>
    let s1 := if c = 43 ∨ c = 45 then rest else c :: rest
    let tok := s1.takeWhile acceptsDigit
    if tok = [] then none
    else
      let i : Int := if c = 45 then -(atoi tok : Int) else (atoi tok : Int)
      if -(2 ^ 63 : Int) ≤ i ∧ i < (2 ^ 63 : Int) then some i else none

/-- The variable `contentLength` after lines 134 to 137 of `main`. -/
def contentLength (hdrs : List (GoString × GoString)) : Int :=
  match mapGet hdrs (go "Content-Length") with
  | some val =>
    match Sscanf val with
    | some i => i
    | none => 0
  | none => 0

/-- The ways in which the response part of `main` panics on a connection that
delivers its bytes and is then closed. -/
inductive Failure where
  /-- The panic of `make([]byte, n)` (`makeslice: len out of range`) for an `n`
  that is negative or above the allocation limit. -/
  | lenOutOfRange
  /-- The error `io.EOF` from `io.ReadFull`: no byte of the body was there. -/
  | EOF
  /-- The error `io.ErrUnexpectedEOF` from `io.ReadFull`: the stream ended inside the body. -/
  | ErrUnexpectedEOF
  deriving DecidableEq, Repr

deriving instance DecidableEq for Except

/-- The call `io.ReadFull(reader, body)` for a buffer of `n` bytes: the bytes
read and the bytes left. -/
def ReadFull (r : GoString) (n : Nat) : Except Failure (GoString × GoString) :=
  if n ≤ r.length then .ok (r.take n, r.drop n)
  else if r = [] then .error .EOF
  else .error .ErrUnexpectedEOF

/-- What the response part of `main` reports: the trimmed status line, the
header map and the body. -/
structure Response where
  statusLine : GoString
  headers : List (GoString × GoString)
  body : GoString
  deriving DecidableEq, Repr

/-- The allocation limit `maxAlloc` of the Go runtime on 64-bit Linux, where
the heap has 48 address bits.  Other platforms have other limits, so the
limit is a parameter of `readResponse`. -/
def maxAlloc64 : Nat := 2 ^ 48

/-- The response part of `main` (lines 105 to 144) on a connection that
delivers the given bytes and is then closed.  The call `make([]byte, n)`
panics for a negative `n` and for an `n` above the allocation limit
`maxAlloc` of the runtime; up to that limit memory is taken to be there. -/
def readResponse (maxAlloc : Nat) (conn : GoString) : Except Failure Response :=
  let statusLine := (ReadString conn 10).1
  let r1 := (ReadString conn 10).2.2
  let hl := headerLoop (r1.length + 1) r1 []
  let n := contentLength hl.1
  if n < 0 ∨ (maxAlloc : Int) < n then .error .lenOutOfRange
  else
    match ReadFull hl.2 n.toNat with
    | .error e => .error e
    | .ok (body, _) => .ok ⟨TrimSpace statusLine, hl.1, body⟩

/-! ## The specification's reading of a header block -/

/-- The header pair of a line in the words of the specification: the line is
split at its first colon into name and value, both trimmed of surrounding
white space; a line without a colon has no pair. -/
def headerPair (line : GoString) : Option (GoString × GoString) :=
  match cut 58 line with
  | some (a, b) => some (TrimSpace a, TrimSpace b)
  | none => none

/-- The header pairs of the well-formed lines among the given lines, in order. -/
def pairsOf (lines : List GoString) : List (GoString × GoString) :=
  lines.filterMap (fun l => headerPair (TrimSpace l))

/-- The map obtained by storing the given pairs one after the other. -/
def storeAll (m : List (GoString × GoString)) (pairs : List (GoString × GoString)) :
    List (GoString × GoString) :=
  pairs.foldl (fun acc p => mapSet acc p.1 p.2) m

/-- The value of the last pair with the given name, if there is one. -/
def lastOccurrence (k : GoString) (pairs : List (GoString × GoString)) : Option GoString :=
  ((pairs.filter (fun p => p.1 = k)).getLast?).map (fun p => p.2)

/-! ## The request in the words of the specification -/

/-- What follows the header lines of a request: for the method `POST` the
`Content-Length` line with the decimal byte count of the body, the
`Connection: close` line, a blank line, the body and a final CR LF; for every
other method a single CR LF. -/
def payloadTail (method body : GoString) : GoString :=
  if method = go "POST" then
    go "Content-Length: " ++ decimal (len body) ++ go "\r\nConnection: close\r\n\r\n"
      ++ body ++ go "\r\n"
  else go "\r\n"

/-- The request for the given header entries, taken in the given order: the
request line, the `Host` line, one line `name:value` per entry, and the tail. -/
def payloadSpec (method target host body : GoString) (entries : List (GoString × GoString)) :
    GoString :=
  method ++ go " " ++ target ++ go " HTTP/1.1\r\nHost: " ++ host ++ go "\r\n"
    ++ entries.flatMap (fun kv => kv.1 ++ go ":" ++ kv.2 ++ go "\r\n")
    ++ payloadTail method body

/-! ## The port -/

/-- The variable `httpPort`. -/
def httpPort : GoString := go "80"

/-- The variable `httpsPort`. -/
def httpsPort : GoString := go "443"

/-- What `main` uses of the URL that `url.Parse` returns: the field `Scheme` and
the results of the methods `Port` (empty when the URL has no port),
`Hostname` and `RequestURI`. -/
structure URL where
  Scheme : GoString
  Port : GoString
  Hostname : GoString
  RequestURI : GoString
  deriving DecidableEq, Repr

/-- The variable `port` of `main` after lines 85 to 92. -/
def port (url : URL) : GoString :=
  if url.Port = [] then
    if url.Scheme = go "https" then httpsPort else httpPort
  else url.Port

/-! ## The header loop with a count of its turns -/

/-- The header loop of `main` with a count of its turns: `none` when the fuel
runs out before the loop is left, otherwise the number of `ReadString` calls
made together with what the loop leaves behind. -/
def headerLoopSteps : Nat → GoString → List (GoString × GoString) →
    Option (Nat × (List (GoString × GoString) × GoString))
  | 0, _, _ => none
  | f + 1, r, hdrs =>
    let line := TrimSpace (ReadString r 10).1
    let r' := (ReadString r 10).2.2
    if line = [] then some (1, (hdrs, r'))
    else
      match SplitN line 58 with
      | [a, b] =>
        (headerLoopSteps f r' (mapSet hdrs (TrimSpace a) (TrimSpace b))).map
          (fun x => (x.1 + 1, x.2))
      | _ => (headerLoopSteps f r' hdrs).map (fun x => (x.1 + 1, x.2))

/-- The number of lines left in a stream: the lines that end in a line feed,
and one more when bytes follow the last line feed. -/
def lineCount (r : GoString) : Nat :=
  r.count 10 + (if r = [] ∨ r.getLast? = some 10 then 0 else 1)

/-! ## Facts about the format loop -/

/-- Fuel beyond the byte count of the format changes nothing. -/
theorem doPrintf_fuel (slow : SlowPath) (a : List Arg) :
    ∀ (n : Nat) (fmt : GoString) (k : Nat) (r : Bool), fmt.length ≤ n →
      doPrintf slow a n fmt k r = doPrintf slow a fmt.length fmt k r := by
  intro n
  induction n using Nat.strong_induction_on with
  | _ n ih =>
    intro fmt k r h
    cases fmt with
    | nil => cases n <;> simp [doPrintf]
    | cons c rest =>
      cases n with
      | zero => simp at h
      | succ n =>
        have hn : rest.length ≤ n := by simpa using h
        have key : ∀ (f : GoString) (k2 : Nat) (r2 : Bool), f.length ≤ rest.length →
            doPrintf slow a n f k2 r2 = doPrintf slow a rest.length f k2 r2 := by
          intro f k2 r2 hf
          rcases Nat.lt_or_ge rest.length n with hlt | hge
          · rw [ih n (Nat.lt_succ_self n) f k2 r2 (le_trans hf hn)]
            rcases Nat.eq_or_lt_of_le hf with heq | hlt2
            · rw [heq]
            · rw [ih rest.length (by omega) f k2 r2 hf]
          · have : n = rest.length := le_antisymm hge hn
            rw [this]
        simp only [List.length_cons, doPrintf]
        split
        · rw [key rest k r le_rfl]
        · split
          · next rest2 s _ =>
            rw [key rest2 (k + 1) r (by simp)]
          · next rest2 i _ =>
            rw [key rest2 (k + 1) r (by simp)]
          · rw [key _ _ _ (by simp)]

/-- Literal text without `%` is copied to the output. -/
theorem doPrintf_lit (slow : SlowPath) (a : List Arg) (rest : GoString) (k : Nat) (r : Bool) :
    ∀ (lit : GoString), 37 ∉ lit →
      doPrintf slow a (lit ++ rest).length (lit ++ rest) k r
        = lit ++ doPrintf slow a rest.length rest k r := by
  intro lit
  induction lit with
  | nil => intro _; rfl
  | cons c lit ih =>
    intro h
    have hc : c ≠ 37 := fun e => h (by simp [e])
    have hl : 37 ∉ lit := fun e => h (by simp [e])
    have step : doPrintf slow a ((c :: lit) ++ rest).length ((c :: lit) ++ rest) k r
        = c :: doPrintf slow a (lit ++ rest).length (lit ++ rest) k r := by
      simp only [List.cons_append, List.length_cons, doPrintf, hc, ne_eq, not_false_eq_true,
        if_true]
      rfl
    rw [step, ih hl]
    rfl

/-- The directive `%s` applied to a string operand prints the string. -/
theorem doPrintf_s (slow : SlowPath) (a : List Arg) (rest : GoString) (k : Nat) (r : Bool)
    (s : GoString) (h : a.get? k = some (.str s)) :
    doPrintf slow a (37 :: 115 :: rest).length (37 :: 115 :: rest) k r
      = s ++ doPrintf slow a rest.length rest (k + 1) r := by
  simp only [List.length_cons, doPrintf, h, ne_eq, not_true_eq_false, if_false]
  rw [doPrintf_fuel slow a _ rest _ _ (by simp)]

/-- The directive `%d` applied to an integer operand prints its decimal form. -/
theorem doPrintf_d (slow : SlowPath) (a : List Arg) (rest : GoString) (k : Nat) (r : Bool)
    (i : Int) (h : a.get? k = some (.int i)) :
    doPrintf slow a (37 :: 100 :: rest).length (37 :: 100 :: rest) k r
      = fmtInteger i ++ doPrintf slow a rest.length rest (k + 1) r := by
  simp only [List.length_cons, doPrintf, h, ne_eq, not_true_eq_false, if_false]
  rw [doPrintf_fuel slow a _ rest _ _ (by simp)]

/-- At the end of the format only the closing check remains. -/
theorem doPrintf_nil (slow : SlowPath) (a : List Arg) (k : Nat) (r : Bool) :
    doPrintf slow a ([] : GoString).length [] k r = extraArgs a k r := rfl

/-- One header entry is formatted as name, colon, value, CR LF. -/
theorem Sprintf_header (slow : SlowPath) (k v : GoString) :
    Sprintf slow (go "%s:%s\r\n") [.str k, .str v] = k ++ 58 :: v ++ [13, 10] := by
  have e : go "%s:%s\r\n" = 37 :: 115 :: ([58] ++ 37 :: 115 :: ([13, 10] ++ [])) := by decide
  unfold Sprintf
  rw [e, doPrintf_s slow [.str k, .str v] _ 0 false k rfl,
    doPrintf_lit slow _ _ _ _ [58] (by decide),
    doPrintf_s slow [.str k, .str v] _ 1 false v rfl,
    doPrintf_lit slow _ _ _ _ [13, 10] (by decide), doPrintf_nil]
  simp [extraArgs]

/-- The method `String` concatenates the header lines in iteration order. -/
theorem headers_String_eq (slow : SlowPath) (h : headers) :
    h.String slow = h.m.flatMap headerLine := by
  unfold headers.String
  have gen : ∀ (l : List (GoString × GoString)) (acc : GoString),
      l.foldl (fun str kv => str ++ Sprintf slow (go "%s:%s\r\n") [.str kv.1, .str kv.2]) acc
        = acc ++ l.flatMap headerLine := by
    intro l
    induction l with
    | nil => intro acc; simp
    | cons x l ih =>
      intro acc
      rw [List.foldl_cons, ih, Sprintf_header, List.flatMap_cons, headerLine]
      simp
  simpa using gen h.m []

theorem headerLines_percentFree (hs : headers) (h : percentFree hs) :
    37 ∉ hs.m.flatMap headerLine := by
  intro hmem
  rcases List.mem_flatMap.1 hmem with ⟨kv, hkv, hin⟩
  have := h kv hkv
  simp [headerLine] at hin
  tauto

/-- The request line and the `Host` line come out first, whatever follows in
the format. -/
theorem Sprintf_head (slow : SlowPath) (tail : GoString) (method uri host : GoString)
    (more : List Arg) :
    Sprintf slow (go "%s %s HTTP/1.1\r\nHost: %s\r\n" ++ tail)
        (.str method :: .str uri :: .str host :: more)
      = method ++ go " " ++ uri ++ go " HTTP/1.1\r\nHost: " ++ host ++ go "\r\n"
          ++ doPrintf slow (.str method :: .str uri :: .str host :: more)
              tail.length tail 3 false := by
  have e : go "%s %s HTTP/1.1\r\nHost: %s\r\n" ++ tail
      = 37 :: 115 :: ([32] ++ 37 :: 115 :: (go " HTTP/1.1\r\nHost: " ++
          37 :: 115 :: (go "\r\n" ++ tail))) := by
    have : go "%s %s HTTP/1.1\r\nHost: %s\r\n"
        = 37 :: 115 :: ([32] ++ 37 :: 115 :: (go " HTTP/1.1\r\nHost: " ++
          37 :: 115 :: (go "\r\n"))) := by decide
    rw [this]; simp
  have e32 : go " " = [32] := by decide
  unfold Sprintf
  rw [e, doPrintf_s slow (.str method :: .str uri :: .str host :: more) _ 0 false method rfl,
    doPrintf_lit slow _ _ _ _ [32] (by decide),
    doPrintf_s slow (.str method :: .str uri :: .str host :: more) _ 1 false uri rfl,
    doPrintf_lit slow _ _ _ _ (go " HTTP/1.1\r\nHost: ") (by decide),
    doPrintf_s slow (.str method :: .str uri :: .str host :: more) _ 2 false host rfl,
    doPrintf_lit slow _ _ _ _ (go "\r\n") (by decide), e32]
  simp

/-- The integer operand `len(body)` prints as the decimal byte count. -/
theorem fmtInteger_len (body : GoString) : fmtInteger ((len body : Nat) : Int) = decimal (len body) := by
  simp [fmtInteger]

/-- Closed form of the output for `POST` and a header set without `%`. -/
theorem makePayload_post (slow : SlowPath) (uri host body : GoString) (hs : headers)
    (h : percentFree hs) :
    makePayload slow MethodPost uri host body hs
      = MethodPost ++ go " " ++ uri ++ go " HTTP/1.1\r\nHost: " ++ host ++ go "\r\n"
          ++ hs.m.flatMap headerLine
          ++ go "Content-Length: " ++ decimal (len body) ++ go "\r\n"
          ++ go "Connection: close\r\n" ++ go "\r\n" ++ body ++ go "\r\n" := by
  have e : hs.String slow ++ (go "Content-Length: %d\r\n" ++ go "Connection: close\r\n" ++ go "\r\n"
        ++ go "%s") ++ go "\r\n"
      = (hs.m.flatMap headerLine ++ go "Content-Length: ") ++ 37 :: 100 ::
          (go "\r\nConnection: close\r\n\r\n" ++ 37 :: 115 :: (go "\r\n" ++ [])) := by
    have : go "Content-Length: %d\r\n" ++ go "Connection: close\r\n" ++ go "\r\n" ++ go "%s"
        = go "Content-Length: " ++ 37 :: 100 ::
            (go "\r\nConnection: close\r\n\r\n" ++ 37 :: 115 :: []) := by decide
    rw [this, headers_String_eq]; simp
  have hp : 37 ∉ hs.m.flatMap headerLine ++ go "Content-Length: " := by
    intro hm
    rcases List.mem_append.1 hm with h1 | h2
    · exact headerLines_percentFree hs h h1
    · exact absurd h2 (by decide)
  have e3 : go "\r\nConnection: close\r\n\r\n"
      = go "\r\n" ++ go "Connection: close\r\n" ++ go "\r\n" := by decide
  simp only [makePayload, if_true, List.append_assoc]
  rw [Sprintf_head]
  simp only [← List.append_assoc] at e ⊢
  simp only [List.append_assoc] at e ⊢
  rw [e, ← List.append_assoc (hs.m.flatMap headerLine), doPrintf_lit slow _ _ _ _ _ hp,
    doPrintf_d slow [.str MethodPost, .str uri, .str host, .int (len body), .str body]
      _ 3 false (len body) rfl,
    doPrintf_lit slow _ _ _ _ (go "\r\nConnection: close\r\n\r\n") (by decide),
    doPrintf_s slow [.str MethodPost, .str uri, .str host, .int (len body), .str body]
      _ 4 false body rfl,
    doPrintf_lit slow _ _ _ _ (go "\r\n") (by decide), doPrintf_nil, fmtInteger_len, e3]
  simp [extraArgs]

/-- Closed form of the output for a method other than `POST` and a header set
without `%`. -/
theorem makePayload_other (slow : SlowPath) (method uri host body : GoString) (hs : headers)
    (hm : method ≠ MethodPost) (h : percentFree hs) :
    makePayload slow method uri host body hs
      = method ++ go " " ++ uri ++ go " HTTP/1.1\r\nHost: " ++ host ++ go "\r\n"
          ++ hs.m.flatMap headerLine ++ go "\r\n" := by
  have hp : 37 ∉ hs.m.flatMap headerLine ++ go "\r\n" := by
    intro hmem
    rcases List.mem_append.1 hmem with h1 | h2
    · exact headerLines_percentFree hs h h1
    · exact absurd h2 (by decide)
  simp only [makePayload, hm, if_false, List.append_assoc]
  rw [Sprintf_head, headers_String_eq]
  have := doPrintf_lit slow [.str method, .str uri, .str host] [] 3 false _ hp
  simp only [List.append_nil] at this
  rw [this, doPrintf_nil]
  simp [extraArgs]

/-! ## The request builder -/

/-- C1 (as stated) fails: for `POST` with body `a=1` and no headers the output
is `...Content-Length: 3\r\nConnection: close\r\n\r\na=1\r\n`, which does not
end with `Content-Length: 3\r\n\r\na=1`. -/
theorem makePayload_post_terminal_counterexample :
    makePayload noSlow (go "POST") (go "/") (go "example.com") (go "a=1") ⟨[]⟩
        = go ("POST / HTTP/1.1\r\nHost: example.com\r\n" ++
              "Content-Length: 3\r\nConnection: close\r\n\r\na=1\r\n")
      ∧ ¬ (go "Content-Length: 3\r\n\r\na=1"
            <:+ makePayload noSlow (go "POST") (go "/") (go "example.com") (go "a=1") ⟨[]⟩) := by
  decide

/-- C1 (amended): for `POST`, every request-target, host and body, and every
header set without `%`, the output is the request line, the `Host` line and
the header lines, then `Content-Length: <byte length of body>`,
`Connection: close`, a blank line and then the body; what follows the body is
left open. -/
theorem makePayload_post_segment (slow : SlowPath) (uri host body : GoString) (hs : headers)
    (h : percentFree hs) :
    ∃ tail, makePayload slow MethodPost uri host body hs
      = go "POST " ++ uri ++ go " HTTP/1.1\r\n" ++ go "Host: " ++ host ++ go "\r\n"
          ++ hs.m.flatMap headerLine
          ++ go "Content-Length: " ++ decimal (len body) ++ go "\r\nConnection: close\r\n\r\n"
          ++ body ++ tail := by
  refine ⟨go "\r\n", ?_⟩
  rw [makePayload_post slow uri host body hs h]
  have e1 : MethodPost ++ go " " = go "POST " := by decide
  have e2 : go " HTTP/1.1\r\nHost: " = go " HTTP/1.1\r\n" ++ go "Host: " := by decide
  have e3 : go "\r\nConnection: close\r\n\r\n"
      = go "\r\n" ++ go "Connection: close\r\n" ++ go "\r\n" := by decide
  rw [e1, e2, e3]
  simp only [List.append_assoc]

/-- Witness for C1 (amended): body `a=1`, no headers. -/
theorem makePayload_post_segment_witness :
    ∃ tail, makePayload noSlow MethodPost (go "/") (go "example.com") (go "a=1") ⟨[]⟩
      = go "POST " ++ go "/" ++ go " HTTP/1.1\r\n" ++ go "Host: " ++ go "example.com" ++ go "\r\n"
          ++ (⟨[]⟩ : headers).m.flatMap headerLine
          ++ go "Content-Length: " ++ decimal (len (go "a=1"))
          ++ go "\r\nConnection: close\r\n\r\n" ++ go "a=1" ++ tail :=
  makePayload_post_segment noSlow (go "/") (go "example.com") (go "a=1") ⟨[]⟩ (by decide)

/-- C2 (code defect): for `POST` with body `a=1` and no headers the bytes after
the first blank line are `a=1\r\n`, five bytes, while the header written by
the same call declares `Content-Length: 3`. -/
theorem makePayload_post_trailing_bytes :
    afterBlankLine (makePayload noSlow (go "POST") (go "/") (go "example.com") (go "a=1") ⟨[]⟩)
        = go "a=1\r\n"
      ∧ len (afterBlankLine
          (makePayload noSlow (go "POST") (go "/") (go "example.com") (go "a=1") ⟨[]⟩)) = 5
      ∧ go "Content-Length: 3\r\n"
          <:+: makePayload noSlow (go "POST") (go "/") (go "example.com") (go "a=1") ⟨[]⟩
      ∧ afterBlankLine
          (makePayload noSlow (go "POST") (go "/") (go "example.com") (go "a=1") ⟨[]⟩)
        ≠ go "a=1" := by
  decide

/-- C3: for every method, request-target, host, body and header set (whatever
the header names and values contain), the output starts with
`<METHOD> <request-target> HTTP/1.1\r\n` immediately followed by
`Host: <host>\r\n`. -/
theorem makePayload_starts (slow : SlowPath) (method uri host body : GoString) (hs : headers) :
    (method ++ go " " ++ uri ++ go " HTTP/1.1\r\n" ++ go "Host: " ++ host ++ go "\r\n")
      <+: makePayload slow method uri host body hs := by
  have e2 : go " HTTP/1.1\r\nHost: " = go " HTTP/1.1\r\n" ++ go "Host: " := by decide
  unfold makePayload
  by_cases hm : method = MethodPost
  · simp only [hm, if_true, List.append_assoc]
    rw [Sprintf_head, e2]
    exact ⟨_, by simp only [List.append_assoc]; rfl⟩
  · simp only [hm, if_false, List.append_assoc]
    rw [Sprintf_head, e2]
    exact ⟨_, by simp only [List.append_assoc]; rfl⟩

/-- A text without LF in front of an LF is one line. -/
theorem splitLF_line (a b : GoString) (h : 10 ∉ a) :
    splitLF (a ++ 10 :: b) = a :: splitLF b := by
  induction a with
  | nil => simp [splitLF]
  | cons c a ih =>
    have hc : c ≠ 10 := fun e => h (by simp [e])
    have ha : 10 ∉ a := fun e => h (by simp [e])
    simp [splitLF, hc, ih ha]

/-- The lines of the header block are the entry lines without their LF. -/
theorem splitLF_headerLines (m : List (GoString × GoString)) (t : GoString)
    (h : ∀ kv ∈ m, 10 ∉ kv.1 ∧ 10 ∉ kv.2) :
    splitLF (m.flatMap headerLine ++ t)
      = m.map (fun kv => kv.1 ++ 58 :: kv.2 ++ [13]) ++ splitLF t := by
  induction m with
  | nil => simp
  | cons kv m ih =>
    have hkv := h kv (by simp)
    have hno : 10 ∉ kv.1 ++ 58 :: kv.2 ++ [13] := by
      intro hm
      simp at hm
      rcases hm with h1 | h2
      · exact hkv.1 h1
      · exact hkv.2 h2
    have e : (kv :: m).flatMap headerLine ++ t
        = (kv.1 ++ 58 :: kv.2 ++ [13]) ++ 10 :: (m.flatMap headerLine ++ t) := by
      simp [headerLine]
    rw [e, splitLF_line _ _ hno, ih (fun x hx => h x (by simp [hx]))]
    simp

/-- A name without a colon that carries a colon-terminated prefix is that prefix. -/
theorem prefix_colon (a : GoString) :
    ∀ (k t : GoString), 58 ∉ a → 58 ∉ k → a ++ [58] <+: k ++ 58 :: t → a = k := by
  induction a with
  | nil =>
    intro k t _ hk hp
    cases k with
    | nil => rfl
    | cons c k =>
      simp at hp
      exact absurd hp (fun e => hk (by simp [e]))
  | cons x a ih =>
    intro k t ha hk hp
    cases k with
    | nil =>
      simp at hp
      exact absurd hp.1 (fun e => ha (by simp [e]))
    | cons c k =>
      simp at hp
      have := ih k t (fun e => ha (by simp [e])) (fun e => hk (by simp [e])) hp.2
      rw [hp.1, this]

/-- C4 (as stated) fails: the header set built from the single flag
`X: a\r\nContent-Length: 5` has no `Content-Length` entry, yet the `GET`
request built with it has the line `Content-Length: 5`. -/
theorem makePayload_get_injected_counterexample :
    mapGet (headersOf [go "X: a\r\nContent-Length: 5"]).m (go "Content-Length") = none
      ∧ makePayload noSlow (go "GET") (go "/") (go "example.com") []
            (headersOf [go "X: a\r\nContent-Length: 5"])
          = go "GET / HTTP/1.1\r\nHost: example.com\r\nX:a\r\nContent-Length: 5\r\n\r\n"
      ∧ go "Content-Length: 5\r"
          ∈ splitLF (makePayload noSlow (go "GET") (go "/") (go "example.com") []
              (headersOf [go "X: a\r\nContent-Length: 5"])) := by
  decide

/-- C4 (amended): for `GET`, `DELETE` and `PUT`, a request-target and host
without line feed, and a header set whose names and values have no `%` and no
line feed and whose names have no colon and are not `Content-Length`: the
output is the request line, the `Host` line and one line per entry, closed by
a single `\r\n` with nothing after it; no line of it begins with
`Content-Length:`; and the output is the same for every body. -/
theorem makePayload_no_body (slow : SlowPath) (method uri host body : GoString) (hs : headers)
    (hm : method ∈ allowedMethods) (hp : method ≠ MethodPost)
    (hu : 10 ∉ uri) (hh : 10 ∉ host)
    (hfree : ∀ kv ∈ hs.m, 37 ∉ kv.1 ∧ 37 ∉ kv.2 ∧ 10 ∉ kv.1 ∧ 10 ∉ kv.2 ∧ 58 ∉ kv.1
      ∧ kv.1 ≠ go "Content-Length") :
    makePayload slow method uri host body hs
        = method ++ go " " ++ uri ++ go " HTTP/1.1\r\n" ++ go "Host: " ++ host ++ go "\r\n"
            ++ hs.m.flatMap headerLine ++ go "\r\n"
      ∧ (∀ l ∈ splitLF (makePayload slow method uri host body hs),
            ¬ go "Content-Length:" <+: l)
      ∧ ∀ body2, makePayload slow method uri host body2 hs
            = makePayload slow method uri host body hs := by
  have hpf : percentFree hs := fun kv hkv => ⟨(hfree kv hkv).1, (hfree kv hkv).2.1⟩
  have e2 : go " HTTP/1.1\r\nHost: " = go " HTTP/1.1\r\n" ++ go "Host: " := by decide
  have closed := makePayload_other slow method uri host body hs hp hpf
  rw [e2] at closed
  simp only [List.append_assoc] at closed
  refine ⟨by rw [closed]; simp only [List.append_assoc], ?_, ?_⟩
  · -- the lines of the output
    have hme : 10 ∉ method := by
      simp only [allowedMethods, List.mem_cons, List.mem_singleton, List.not_mem_nil,
        or_false] at hm
      rcases hm with h | h | h | h <;> rw [h] <;> decide
    have hmC : ∀ t, ¬ go "Content-Length:" <+: method ++ t := by
      intro t
      simp only [allowedMethods, List.mem_cons, List.mem_singleton, List.not_mem_nil,
        or_false] at hm
      have eC : go "Content-Length:" = 67 :: go "ontent-Length:" := by decide
      have e1 : go "GET" = 71 :: go "ET" := by decide
      have e3 : go "DELETE" = 68 :: go "ELETE" := by decide
      have e4 : go "POST" = 80 :: go "OST" := by decide
      have e5 : go "PUT" = 80 :: go "UT" := by decide
      rcases hm with h | h | h | h <;> rw [h, eC]
      · rw [e1]; simp
      · rw [e3]; simp
      · rw [e4]; simp
      · rw [e5]; simp
    have l1 : 10 ∉ method ++ (go " " ++ (uri ++ go " HTTP/1.1\r")) := by
      intro hmem
      simp only [List.mem_append] at hmem
      rcases hmem with h | h | h | h
      · exact hme h
      · exact absurd h (by decide)
      · exact hu h
      · exact absurd h (by decide)
    have l2 : 10 ∉ go "Host: " ++ (host ++ go "\r") := by
      intro hmem
      simp only [List.mem_append] at hmem
      rcases hmem with h | h | h
      · exact absurd h (by decide)
      · exact hh h
      · exact absurd h (by decide)
    have shape : makePayload slow method uri host body hs
        = (method ++ (go " " ++ (uri ++ go " HTTP/1.1\r"))) ++ 10 ::
            ((go "Host: " ++ (host ++ go "\r")) ++ 10 ::
              (hs.m.flatMap headerLine ++ go "\r\n")) := by
      have a1 : go " HTTP/1.1\r\n" = go " HTTP/1.1\r" ++ [10] := by decide
      have a2 : go "\r\n" = go "\r" ++ [10] := by decide
      rw [closed, a1]
      conv_lhs => rw [a2]
      simp only [List.append_assoc, List.singleton_append, List.cons_append, List.nil_append]
      rw [← a2]
    rw [shape, splitLF_line _ _ l1, splitLF_line _ _ l2,
      splitLF_headerLines hs.m _ (fun kv hkv => ⟨(hfree kv hkv).2.2.1, (hfree kv hkv).2.2.2.1⟩)]
    intro l hl
    have eT : splitLF (go "\r\n") = [[13], []] := by decide
    rw [eT] at hl
    simp only [List.mem_cons, List.mem_append, List.mem_map, List.mem_singleton,
      List.not_mem_nil, or_false] at hl
    rcases hl with h | h | ⟨kv, hkv, h⟩ | h | h
    · rw [h]; exact hmC _
    · rw [h]
      have eC : go "Content-Length:" = 67 :: go "ontent-Length:" := by decide
      have eH : go "Host: " = 72 :: go "ost: " := by decide
      rw [eC, eH]; simp
    · rw [← h]
      intro hpre
      have eC : go "Content-Length:" = go "Content-Length" ++ [58] := by decide
      rw [eC] at hpre
      have hk := hfree kv hkv
      have := prefix_colon (go "Content-Length") kv.1 (kv.2 ++ [13]) (by decide) hk.2.2.2.2.1
        (by simpa using hpre)
      exact hk.2.2.2.2.2 this.symm
    · rw [h]; decide
    · rw [h]; decide
  · intro body2
    simp only [makePayload, hp, if_false]

/-- Witness for C4 (amended): `GET` with an empty body and no headers. -/
theorem makePayload_no_body_witness :
    makePayload noSlow (go "GET") (go "/path?q=1") (go "example.com") [] ⟨[]⟩
        = go "GET" ++ go " " ++ go "/path?q=1" ++ go " HTTP/1.1\r\n" ++ go "Host: "
            ++ go "example.com" ++ go "\r\n" ++ (⟨[]⟩ : headers).m.flatMap headerLine ++ go "\r\n"
      ∧ (∀ l ∈ splitLF (makePayload noSlow (go "GET") (go "/path?q=1") (go "example.com") [] ⟨[]⟩),
            ¬ go "Content-Length:" <+: l)
      ∧ ∀ body2, makePayload noSlow (go "GET") (go "/path?q=1") (go "example.com") body2 ⟨[]⟩
            = makePayload noSlow (go "GET") (go "/path?q=1") (go "example.com") [] ⟨[]⟩ :=
  makePayload_no_body noSlow (go "GET") (go "/path?q=1") (go "example.com") [] ⟨[]⟩
    (by decide) (by decide) (by decide) (by decide) (by decide)

/-- The digit character of a number below ten is `'0'` plus that number. -/
theorem digitChar_toNat (m : Nat) (h : m < 10) : (Nat.digitChar m).toNat = 48 + m := by
  interval_cases m <;> rfl

/-- The digit loop agrees with the digit loop of `Nat.toDigits`. -/
theorem decimalAux_eq_toDigitsCore :
    ∀ (f n : Nat) (ds : List Char),
      decimalAux f n (ds.map Char.toNat) = (Nat.toDigitsCore 10 f n ds).map Char.toNat := by
  intro f
  induction f with
  | zero => intro n ds; simp [decimalAux, Nat.toDigitsCore]
  | succ f ih =>
    intro n ds
    have hd : (Nat.digitChar (n % 10)).toNat = 48 + n % 10 :=
      digitChar_toNat _ (Nat.mod_lt _ (by decide))
    by_cases hn : n < 10
    · have h0 : n / 10 = 0 := Nat.div_eq_of_lt hn
      have hm : n % 10 = n := Nat.mod_eq_of_lt hn
      simp [decimalAux, Nat.toDigitsCore, hn, h0, hm, digitChar_toNat n hn]
    · have h0 : n / 10 ≠ 0 := by
        intro e
        have := (Nat.div_eq_zero_iff (by decide : 0 < 10)).1 e
        exact hn this
      simp only [decimalAux, Nat.toDigitsCore, hn, h0, if_false]
      rw [← ih]
      simp [hd]

/-- The text written by `%d` is the decimal numeral of the number. -/
theorem decimal_eq_toDigits (n : Nat) : decimal n = (Nat.toDigits 10 n).map Char.toNat := by
  unfold decimal Nat.toDigits
  simpa using decimalAux_eq_toDigitsCore (n + 1) n []

/-- C5 (as stated) fails: the entry `X-Foo`, `bar` is written as `X-Foo:bar`,
without a space after the colon, so the line `X-Foo: bar` is not in the
output. -/
theorem makePayload_header_space_counterexample :
    (headersOf [go "X-Foo: bar"]).m = [(go "X-Foo", go "bar")]
      ∧ makePayload noSlow (go "GET") (go "/") (go "example.com") []
            (headersOf [go "X-Foo: bar"])
          = go "GET / HTTP/1.1\r\nHost: example.com\r\nX-Foo:bar\r\n\r\n"
      ∧ ¬ (go "X-Foo: bar\r\n"
            <:+: makePayload noSlow (go "GET") (go "/") (go "example.com") []
              (headersOf [go "X-Foo: bar"])) := by
  decide

/-- C5 (amended): the output has, right after the `Host` line, one line
`<Name>:<Value>\r\n` (name, colon, value, CR LF, no space) per entry of the
header set, in iteration order, and then a rest of the request that is the
same for every header set; this holds for every header set without `%`. -/
theorem makePayload_header_lines (slow : SlowPath) (method uri host body : GoString) :
    ∃ rest, ∀ hs : headers, percentFree hs →
      makePayload slow method uri host body hs
        = method ++ go " " ++ uri ++ go " HTTP/1.1\r\n" ++ go "Host: " ++ host ++ go "\r\n"
            ++ (hs.m.map (fun kv => kv.1 ++ go ":" ++ kv.2 ++ go "\r\n")).flatten ++ rest := by
  have e2 : go " HTTP/1.1\r\nHost: " = go " HTTP/1.1\r\n" ++ go "Host: " := by decide
  have e3 : ∀ hs : headers, hs.m.flatMap headerLine
      = (hs.m.map (fun kv => kv.1 ++ go ":" ++ kv.2 ++ go "\r\n")).flatten := by
    intro hs
    have a1 : go ":" = [58] := by decide
    have a2 : go "\r\n" = [13, 10] := by decide
    rw [List.flatMap, a1, a2]
    congr 1
    apply List.map_congr_left
    intro kv _
    simp [headerLine]
  by_cases hm : method = MethodPost
  · subst hm
    refine ⟨go "Content-Length: " ++ decimal (len body) ++ go "\r\n"
          ++ go "Connection: close\r\n" ++ go "\r\n" ++ body ++ go "\r\n", ?_⟩
    intro hs h
    rw [makePayload_post slow uri host body hs h, e2, e3]
    simp only [List.append_assoc]
  · refine ⟨go "\r\n", ?_⟩
    intro hs h
    rw [makePayload_other slow method uri host body hs hm h, e2, e3]
    simp only [List.append_assoc]

/-- Witness for C5 (amended): the header set built from `-H "X-Foo: bar"`. -/
theorem makePayload_header_lines_witness :
    ∃ rest, makePayload noSlow (go "GET") (go "/") (go "example.com") []
        (headersOf [go "X-Foo: bar"])
      = go "GET" ++ go " " ++ go "/" ++ go " HTTP/1.1\r\n" ++ go "Host: " ++ go "example.com"
          ++ go "\r\n"
          ++ ((headersOf [go "X-Foo: bar"]).m.map
                (fun kv => kv.1 ++ go ":" ++ kv.2 ++ go "\r\n")).flatten ++ rest :=
  (makePayload_header_lines noSlow (go "GET") (go "/") (go "example.com") []).imp
    (fun _ h => h (headersOf [go "X-Foo: bar"]) (by decide))

/-- C6: for `POST` with an empty header set and every body, the number in the
`Content-Length` line is the decimal numeral of the byte count of the body,
not of its character count; the body `é` (one character, two bytes) gives
`Content-Length: 2`. -/
theorem makePayload_content_length (slow : SlowPath) (uri host body : GoString) :
    makePayload slow (go "POST") uri host body ⟨[]⟩
        = go "POST " ++ uri ++ go " HTTP/1.1\r\n" ++ go "Host: " ++ host ++ go "\r\n"
            ++ go "Content-Length: " ++ (Nat.toDigits 10 body.length).map Char.toNat ++ go "\r\n"
            ++ go "Connection: close\r\n" ++ go "\r\n" ++ body ++ go "\r\n"
      ∧ "é".length = 1 ∧ (go "é").length = 2
      ∧ makePayload slow (go "POST") uri host (go "é") ⟨[]⟩
        = go "POST " ++ uri ++ go " HTTP/1.1\r\n" ++ go "Host: " ++ host ++ go "\r\n"
            ++ go "Content-Length: 2\r\n" ++ go "Connection: close\r\n" ++ go "\r\n"
            ++ go "é" ++ go "\r\n" := by
  have e1 : MethodPost ++ go " " = go "POST " := by decide
  have e2 : go " HTTP/1.1\r\nHost: " = go " HTTP/1.1\r\n" ++ go "Host: " := by decide
  have e0 : go "POST" = MethodPost := rfl
  have hpf : percentFree ⟨[]⟩ := by decide
  have e4 : go "Content-Length: " ++ decimal (len (go "é")) ++ go "\r\n"
      = go "Content-Length: 2\r\n" := by decide
  refine ⟨?_, by decide, by decide, ?_⟩
  · rw [e0, makePayload_post slow uri host body ⟨[]⟩ hpf, e1, e2, decimal_eq_toDigits]
    simp only [List.flatMap_nil, List.append_nil, List.append_assoc, len]
  · rw [e0, makePayload_post slow uri host (go "é") ⟨[]⟩ hpf, e1, e2]
    simp only [List.flatMap_nil, List.append_nil, List.append_assoc]
    rw [← e4]
    simp only [List.append_assoc]

/-! ## Method validation -/

/-- The loop accepts exactly when the upper-cased string is in the list. -/
theorem validateLoop_eq_none (mapUpper : GoString → GoString) (str : GoString) :
    ∀ (l : List GoString), validateLoop mapUpper str l = none ↔ ToUpper mapUpper str ∈ l := by
  intro l
  induction l with
  | nil => simp [validateLoop]
  | cons m l ih =>
    by_cases h : ToUpper mapUpper str = m
    · simp [validateLoop, h]
    · simp [validateLoop, h, ih]

/-- The loop returns no error other than `ErrMethodNotSupported`. -/
theorem validateLoop_cases (mapUpper : GoString → GoString) (str : GoString) :
    ∀ (l : List GoString), validateLoop mapUpper str l = none
      ∨ validateLoop mapUpper str l = some .ErrMethodNotSupported := by
  intro l
  induction l with
  | nil => simp [validateLoop]
  | cons m l ih =>
    by_cases h : ToUpper mapUpper str = m
    · simp [validateLoop, h]
    · simpa [validateLoop, h] using ih

/-- On ASCII text the Unicode case mapping is not consulted. -/
theorem ToUpper_ascii (mapUpper : GoString → GoString) (s : GoString)
    (h : s.all (· < 128) = true) :
    ToUpper mapUpper s = ToUpper noMapUpper s := by
  simp only [ToUpper, h, if_true]

/-- C7 (as stated) fails: `validateMethod("get")` is `nil` although `get` is
not one of the four strings `GET`, `DELETE`, `POST`, `PUT`. -/
theorem validateMethod_lowercase_counterexample :
    validateMethod noMapUpper (go "get") = none
      ∧ go "get" ∉ [go "GET", go "DELETE", go "POST", go "PUT"] := by
  decide

/-- C7 (amended): for every string, `validateMethod` returns
`ErrMethodNotSupported` exactly when its upper-cased form is not one of `GET`,
`DELETE`, `POST`, `PUT`, and `nil` otherwise; the four strings themselves are
accepted and `PATCH` is rejected. -/
theorem validateMethod_iff (mapUpper : GoString → GoString) (s : GoString) :
    (validateMethod mapUpper s = some .ErrMethodNotSupported
        ↔ ToUpper mapUpper s ∉ [go "GET", go "DELETE", go "POST", go "PUT"])
      ∧ (validateMethod mapUpper s = none
        ↔ ToUpper mapUpper s ∈ [go "GET", go "DELETE", go "POST", go "PUT"])
      ∧ (∀ m ∈ [go "GET", go "DELETE", go "POST", go "PUT"], validateMethod mapUpper m = none)
      ∧ validateMethod mapUpper (go "PATCH") = some .ErrMethodNotSupported := by
  have hnone := validateLoop_eq_none mapUpper s allowedMethods
  have hcases := validateLoop_cases mapUpper s allowedMethods
  refine ⟨?_, hnone, ?_, ?_⟩
  · constructor
    · intro h hmem
      have := hnone.2 hmem
      unfold validateMethod at h
      rw [h] at this
      cases this
    · intro h
      rcases hcases with h1 | h1
      · exact absurd (hnone.1 h1) h
      · exact h1
  · intro m hm
    simp only [List.mem_cons, List.mem_singleton, List.not_mem_nil, or_false] at hm
    rcases hm with h | h | h | h <;> subst h <;>
      exact (validateLoop_eq_none mapUpper _ allowedMethods).2
        (by rw [ToUpper_ascii mapUpper _ (by decide)]; decide)
  · rcases validateLoop_cases mapUpper (go "PATCH") allowedMethods with h1 | h1
    · have := (validateLoop_eq_none mapUpper _ allowedMethods).1 h1
      rw [ToUpper_ascii mapUpper _ (by decide)] at this
      exact absurd this (by decide)
    · exact h1

/-! ## Facts about `TrimSpace` -/

/-- An ASCII space is below `0x80`. -/
theorem asciiSpace_lt (c : Nat) (h : asciiSpace c = true) : c < 128 := by
  simp [asciiSpace] at h
  omega

/-- No white-space character of two or more bytes ends in an ASCII byte. -/
theorem isSpaceRune_snoc (x : GoString) (c : Nat) (hx : x ≠ []) (hc : c < 128) :
    isSpaceRune (x ++ [c]) = false := by
  rcases x with _ | ⟨a, _ | ⟨b, _ | ⟨d, x⟩⟩⟩
  · exact absurd rfl hx
  · simp [isSpaceRune]; omega
  · simp [isSpaceRune]; omega
  · simp [isSpaceRune]

/-- No white-space character starts with an ASCII byte that is not a space. -/
theorem isSpaceRune_cons (a : Nat) (x : GoString) (ha : a < 128) (hs : asciiSpace a = false) :
    isSpaceRune (a :: x) = false := by
  rcases x with _ | ⟨b, _ | ⟨d, _ | ⟨e, x⟩⟩⟩
  · simp [isSpaceRune, hs]
  · simp [isSpaceRune]; omega
  · simp [isSpaceRune]; omega
  · simp [isSpaceRune]

/-- A white-space character has between one and three bytes. -/
theorem isSpaceRune_length (x : GoString) (h : isSpaceRune x = true) :
    1 ≤ x.length ∧ x.length ≤ 3 := by
  rcases x with _ | ⟨a, _ | ⟨b, _ | ⟨d, _ | ⟨e, x⟩⟩⟩⟩ <;> simp [isSpaceRune] at h ⊢

theorem leadingSpace_nil : leadingSpace [] = 0 := by decide

theorem trailingSpace_nil : trailingSpace [] = 0 := by decide

/-- The width found at the front is at most the length of the string. -/
theorem leadingSpace_le (s : GoString) : leadingSpace s ≤ s.length := by
  unfold leadingSpace
  split
  · next h => have := isSpaceRune_length _ h; simp at this; omega
  · split
    · next h =>
      have := isSpaceRune_length _ h
      rcases s with _ | ⟨a, _ | ⟨b, s⟩⟩ <;> simp_all [isSpaceRune]
    · split
      · next h =>
        have := isSpaceRune_length _ h
        rcases s with _ | ⟨a, _ | ⟨b, _ | ⟨d, s⟩⟩⟩ <;> simp_all [isSpaceRune]
      · omega

/-- A string that starts with an ASCII byte other than a space has no leading
white space. -/
theorem leadingSpace_cons (a : Nat) (s : GoString) (ha : a < 128) (hs : asciiSpace a = false) :
    leadingSpace (a :: s) = 0 := by
  have h1 := isSpaceRune_cons a [] ha hs
  have h2 := isSpaceRune_cons a (s.take 1) ha hs
  have h3 := isSpaceRune_cons a (s.take 2) ha hs
  simp [leadingSpace, h1, h2, h3]

/-- A string that starts with an ASCII space has leading white space of width one. -/
theorem leadingSpace_space (c : Nat) (s : GoString) (hc : asciiSpace c = true) :
    leadingSpace (c :: s) = 1 := by
  simp [leadingSpace, isSpaceRune, hc]

/-- An ASCII byte added at the end of a non-empty string does not change what
is found at its front. -/
theorem leadingSpace_snoc (s : GoString) (c : Nat) (hs : s ≠ []) (hc : c < 128) :
    leadingSpace (s ++ [c]) = leadingSpace s := by
  rcases s with _ | ⟨a, _ | ⟨b, _ | ⟨d, s⟩⟩⟩
  · exact absurd rfl hs
  · have h2 : isSpaceRune [a, c] = false := isSpaceRune_snoc [a] c (by simp) hc
    simp only [leadingSpace, List.singleton_append, List.take, h2]
    by_cases h : isSpaceRune [a] = true <;> simp [h]
  · have h3 : isSpaceRune [a, b, c] = false := isSpaceRune_snoc [a, b] c (by simp) hc
    simp only [leadingSpace, List.cons_append, List.nil_append, List.take, h3]
    by_cases h : isSpaceRune [a] = true <;> by_cases h' : isSpaceRune [a, b] = true <;>
      simp [h, h']
  · simp [leadingSpace]

theorem trimLeftAux_nil (f : Nat) : trimLeftAux f [] = [] := by
  cases f <;> simp [trimLeftAux, leadingSpace_nil]

theorem trimRightAux_nil (f : Nat) : trimRightAux f [] = [] := by
  cases f <;> simp [trimRightAux, trailingSpace_nil]

/-- An ASCII space added at the end survives the removal of leading white
space, unless the whole string is white space. -/
theorem trimLeftAux_snoc (c : Nat) (hc : asciiSpace c = true) :
    ∀ (n : Nat) (s : GoString), s.length ≤ n →
      trimLeftAux (n + 1) (s ++ [c])
        = if trimLeftAux n s = [] then [] else trimLeftAux n s ++ [c] := by
  intro n
  induction n with
  | zero =>
    intro s hs
    have : s = [] := List.length_eq_zero.1 (Nat.le_zero.1 hs)
    subst this
    simp [trimLeftAux, leadingSpace_space c [] hc]
  | succ m ih =>
    intro s hs
    by_cases hnil : s = []
    · subst hnil
      simp [trimLeftAux, leadingSpace_space c [] hc, leadingSpace_nil, trimLeftAux_nil]
    · have hk := leadingSpace_snoc s c hnil (asciiSpace_lt c hc)
      have hle := leadingSpace_le s
      by_cases h0 : leadingSpace s = 0
      · have e1 : trimLeftAux (m + 1 + 1) (s ++ [c]) = s ++ [c] := by
          rw [trimLeftAux]; simp [hk, h0]
        have e2 : trimLeftAux (m + 1) s = s := by
          rw [trimLeftAux]; simp [h0]
        rw [e1, e2]; simp [hnil]
      · have e1 : trimLeftAux (m + 1 + 1) (s ++ [c])
            = trimLeftAux (m + 1) (s.drop (leadingSpace s) ++ [c]) := by
          rw [trimLeftAux]
          simp only [hk, h0, if_false]
          rw [List.drop_append_of_le_length hle]
        have e2 : trimLeftAux (m + 1) s = trimLeftAux m (s.drop (leadingSpace s)) := by
          rw [trimLeftAux]; simp [h0]
        rw [e1, e2]
        apply ih
        simp only [List.length_drop]
        omega

/-- An ASCII space at the end is removed with the trailing white space. -/
theorem trimRightAux_snoc (c : Nat) (hc : asciiSpace c = true) (t : GoString) :
    trimRightAux (t ++ [c]).length (t ++ [c]) = trimRightAux t.length t := by
  have h1 : trailingSpace (t ++ [c]) = 1 := by
    simp [trailingSpace, isSpaceRune, hc]
  simp only [List.length_append, List.length_singleton, trimRightAux, h1]
  simp

/-- An ASCII space added at the end does not change the trimmed string. -/
theorem TrimSpace_snoc (s : GoString) (c : Nat) (hc : asciiSpace c = true) :
    TrimSpace (s ++ [c]) = TrimSpace s := by
  unfold TrimSpace
  simp only [List.length_append, List.length_singleton]
  rw [trimLeftAux_snoc c hc s.length s le_rfl]
  by_cases h : trimLeftAux s.length s = []
  · simp [h]
  · simp only [h, if_false]
    exact trimRightAux_snoc c hc _

/-- An ASCII space in front does not change the trimmed string. -/
theorem TrimSpace_cons (s : GoString) (c : Nat) (hc : asciiSpace c = true) :
    TrimSpace (c :: s) = TrimSpace s := by
  unfold TrimSpace
  simp [trimLeftAux, leadingSpace_space c s hc]

/-- A string that ends with an ASCII byte other than a space has no trailing
white space. -/
theorem trailingSpace_snoc (x : GoString) (z : Nat) (hz : z < 128) (hs : asciiSpace z = false) :
    trailingSpace (x ++ [z]) = 0 := by
  have key : ∀ k, 1 ≤ k → isSpaceRune ((x ++ [z]).drop ((x ++ [z]).length - k)) = false := by
    intro k hk
    have e : (x ++ [z]).length - k = x.length - (k - 1) := by simp; omega
    rw [e, List.drop_append_of_le_length (Nat.sub_le _ _)]
    by_cases hy : x.drop (x.length - (k - 1)) = []
    · rw [hy]; simp [isSpaceRune, hs]
    · exact isSpaceRune_snoc _ z hy hz
  unfold trailingSpace
  rw [key 1 le_rfl, key 2 (by decide), key 3 (by decide)]
  simp

/-- A string that starts and ends with ASCII bytes other than spaces is its
own trimmed form. -/
theorem TrimSpace_id (a z : Nat) (s x : GoString) (e : a :: s = x ++ [z])
    (ha : a < 128) (has : asciiSpace a = false) (hz : z < 128) (hzs : asciiSpace z = false) :
    TrimSpace (a :: s) = a :: s := by
  have h1 : trimLeftAux (a :: s).length (a :: s) = a :: s := by
    simp [trimLeftAux, leadingSpace_cons a s ha has]
  unfold TrimSpace
  simp only [h1]
  rw [e]
  simp [trimRightAux, trailingSpace_snoc x z hz hzs]

/-! ## Facts about lines, numerals and the scan of numerals -/

/-- The first separator splits the text. -/
theorem cut_append (sep : Nat) (a b : GoString) (h : sep ∉ a) :
    cut sep (a ++ sep :: b) = some (a, b) := by
  induction a with
  | nil => simp [cut]
  | cons c a ih =>
    have hc : c ≠ sep := fun e => h (by simp [e])
    have ha : sep ∉ a := fun e => h (by simp [e])
    simp [cut, hc, ih ha]

/-- Without a separator there is no split. -/
theorem cut_none (sep : Nat) (s : GoString) (h : sep ∉ s) : cut sep s = none := by
  induction s with
  | nil => rfl
  | cons c s ih =>
    have hc : c ≠ sep := fun e => h (by simp [e])
    have hs : sep ∉ s := fun e => h (by simp [e])
    simp [cut, hc, ih hs]

/-- A split is at the first separator. -/
theorem cut_some (sep : Nat) :
    ∀ (s a b : GoString), cut sep s = some (a, b) → s = a ++ sep :: b ∧ sep ∉ a := by
  intro s
  induction s with
  | nil => intro a b h; simp [cut] at h
  | cons c s ih =>
    intro a b h
    by_cases hc : c = sep
    · simp [cut, hc] at h
      rcases h with ⟨rfl, rfl⟩
      simp [hc]
    · simp only [cut, hc, if_false, Option.map_eq_some'] at h
      rcases h with ⟨⟨a', b'⟩, h1, h2⟩
      simp only [Prod.mk.injEq] at h2
      rcases h2 with ⟨rfl, rfl⟩
      have := ih a' b' h1
      refine ⟨by rw [this.1]; simp, ?_⟩
      intro hm
      simp only [List.mem_cons] at hm
      rcases hm with h3 | h3
      · exact hc h3.symm
      · exact this.2 h3

/-- Reading a line that ends in LF. -/
theorem ReadString_line (a b : GoString) (h : 10 ∉ a) :
    ReadString (a ++ 10 :: b) 10 = (a ++ [10], false, b) := by
  simp [ReadString, cut_append 10 a b h]

/-- Every byte of the digit loop's result is a digit when those of the
accumulator are. -/
theorem decimalAux_digits :
    ∀ (f n : Nat) (acc : GoString), (∀ d ∈ acc, 48 ≤ d ∧ d ≤ 57) →
      ∀ d ∈ decimalAux f n acc, 48 ≤ d ∧ d ≤ 57 := by
  intro f
  induction f with
  | zero => intro n acc h; simpa [decimalAux] using h
  | succ f ih =>
    intro n acc h
    by_cases hn : n < 10
    · simp only [decimalAux, hn, if_true]
      intro d hd
      simp only [List.mem_cons] at hd
      rcases hd with rfl | hd
      · omega
      · exact h d hd
    · simp only [decimalAux, hn, if_false]
      apply ih
      intro d hd
      simp only [List.mem_cons] at hd
      rcases hd with rfl | hd
      · omega
      · exact h d hd

/-- With fuel left the digit loop writes at least one digit. -/
theorem decimalAux_ne_nil :
    ∀ (f n : Nat) (acc : GoString), (f = 0 → acc ≠ []) → decimalAux f n acc ≠ [] := by
  intro f
  induction f with
  | zero => intro n acc h; simpa [decimalAux] using h rfl
  | succ f ih =>
    intro n acc _
    by_cases hn : n < 10
    · simp [decimalAux, hn]
    · simp only [decimalAux, hn, if_false]
      exact ih _ _ (fun _ => by simp)

/-- Reading back what the digit loop wrote gives the number. -/
theorem decimalAux_foldl :
    ∀ (f n : Nat) (acc : GoString), n < f →
      (decimalAux f n acc).foldl (fun a d => a * 10 + (d - 48)) 0
        = acc.foldl (fun a d => a * 10 + (d - 48)) n := by
  intro f
  induction f with
  | zero => intro n acc h; omega
  | succ f ih =>
    intro n acc h
    by_cases hn : n < 10
    · simp [decimalAux, hn]
    · simp only [decimalAux, hn, if_false]
      rw [ih (n / 10) _ (by omega)]
      simp only [List.foldl_cons]
      congr 1
      omega

theorem decimal_digits (n : Nat) : ∀ d ∈ decimal n, 48 ≤ d ∧ d ≤ 57 :=
  decimalAux_digits (n + 1) n [] (by simp)

theorem decimal_ne_nil (n : Nat) : decimal n ≠ [] :=
  decimalAux_ne_nil (n + 1) n [] (by simp)

theorem atoi_decimal (n : Nat) : atoi (decimal n) = n := by
  unfold atoi decimal
  rw [decimalAux_foldl (n + 1) n [] (by omega)]
  rfl

/-! ## The header loop -/

/-- The loop's split of a line is the specification's header pair. -/
theorem SplitN_headerPair (line : GoString) (m : List (GoString × GoString)) :
    (match SplitN line 58 with
      | [a, b] => mapSet m (TrimSpace a) (TrimSpace b)
      | _ => m)
      = match headerPair line with
        | some p => mapSet m p.1 p.2
        | none => m := by
  unfold SplitN headerPair
  cases h : cut 58 line with
  | none => rfl
  | some p => rfl

/-- One turn of the loop on a line that is not empty after trimming. -/
theorem headerLoop_line (f : Nat) (l r : GoString) (m : List (GoString × GoString))
    (hl : 10 ∉ l) (hne : TrimSpace l ≠ []) :
    headerLoop (f + 1) (l ++ 10 :: r) m
      = headerLoop f r (match headerPair (TrimSpace l) with
          | some p => mapSet m p.1 p.2
          | none => m) := by
  have ht : TrimSpace (l ++ [10]) = TrimSpace l := TrimSpace_snoc l 10 (by decide)
  rw [← SplitN_headerPair]
  simp only [headerLoop, ReadString_line l r hl, ht, hne, if_false]
  unfold SplitN
  cases h : cut 58 (TrimSpace l) with
  | none => rfl
  | some p => rfl

/-- The turn of the loop on the line that is empty after trimming. -/
theorem headerLoop_end (f : Nat) (e r : GoString) (m : List (GoString × GoString))
    (he : 10 ∉ e) (hE : TrimSpace e = []) :
    headerLoop (f + 1) (e ++ 10 :: r) m = (m, r) := by
  have ht : TrimSpace (e ++ [10]) = TrimSpace e := TrimSpace_snoc e 10 (by decide)
  simp [headerLoop, ReadString_line e r he, ht, hE]

/-- The loop over a block of lines closed by an empty line. -/
theorem headerLoop_lines (e rest : GoString) (he : 10 ∉ e) (hE : TrimSpace e = []) :
    ∀ (ls : List GoString) (f : Nat) (m : List (GoString × GoString)), ls.length < f →
      (∀ l ∈ ls, 10 ∉ l ∧ TrimSpace l ≠ []) →
      headerLoop f (ls.flatMap (fun l => l ++ [10]) ++ (e ++ 10 :: rest)) m
        = (storeAll m (pairsOf ls), rest) := by
  intro ls
  induction ls with
  | nil =>
    intro f m hf _
    obtain ⟨f, rfl⟩ : ∃ g, f = g + 1 := ⟨f - 1, by simp at hf; omega⟩
    simpa [storeAll, pairsOf] using headerLoop_end f e rest m he hE
  | cons l ls ih =>
    intro f m hf h
    obtain ⟨f, rfl⟩ : ∃ g, f = g + 1 := ⟨f - 1, by simp at hf; omega⟩
    have hl := h l (by simp)
    have e1 : (l :: ls).flatMap (fun l => l ++ [10]) ++ (e ++ 10 :: rest)
        = l ++ 10 :: (ls.flatMap (fun l => l ++ [10]) ++ (e ++ 10 :: rest)) := by simp
    rw [e1, headerLoop_line f l _ m hl.1 hl.2,
      ih f _ (by simpa using hf) (fun x hx => h x (by simp [hx]))]
    cases hp : headerPair (TrimSpace l) with
    | none => simp [storeAll, pairsOf, hp]
    | some p => simp [storeAll, pairsOf, hp]

/-- Storing a pair whose name is not in the map adds it at the end. -/
theorem mapSet_fresh :
    ∀ (m : List (GoString × GoString)) (k v : GoString), k ∉ m.map Prod.fst →
      mapSet m k v = m ++ [(k, v)] := by
  intro m
  induction m with
  | nil => intro k v _; rfl
  | cons p m ih =>
    intro k v h
    obtain ⟨k', v'⟩ := p
    have hk : k' ≠ k := fun e => h (by simp [e])
    have hm : k ∉ m.map Prod.fst := fun e => h (by simp [e])
    simp [mapSet, hk, ih k v hm]

/-- Pairs with distinct names are stored as they are. -/
theorem storeAll_nodup :
    ∀ (pairs m : List (GoString × GoString)), ((m ++ pairs).map Prod.fst).Nodup →
      storeAll m pairs = m ++ pairs := by
  intro pairs
  induction pairs with
  | nil => intro m _; simp [storeAll]
  | cons p pairs ih =>
    intro m h
    have hfresh : p.1 ∉ m.map Prod.fst := by
      intro hmem
      simp only [List.map_append, List.map_cons] at h
      have := (List.nodup_append.1 h).2.2
      exact this hmem (by simp)
    have e : storeAll m (p :: pairs) = storeAll (mapSet m p.1 p.2) pairs := rfl
    rw [e, mapSet_fresh m p.1 p.2 hfresh, ih (m ++ [(p.1, p.2)]) (by simpa using h)]
    simp

/-- A block of lines has at least as many bytes as lines. -/
theorem length_block (ls : List GoString) :
    ls.length ≤ (ls.flatMap (fun l => l ++ [10])).length := by
  induction ls with
  | nil => simp
  | cons l ls ih => simp only [List.flatMap_cons, List.length_append, List.length_cons,
      List.length_nil]; omega

/-- C9: for every header block (lines without LF that are not empty after
trimming, then a line that is, then whatever follows), the header loop stops
right after the empty line with the map that results from storing, in order,
the pair of every line that has a colon (the line split at its first colon,
name and value trimmed) and skipping the lines without a colon; when the
names are distinct the map is exactly the list of these pairs. -/
theorem headerLoop_block (ls : List GoString) (e rest : GoString)
    (hl : ∀ l ∈ ls, 10 ∉ l ∧ TrimSpace l ≠ []) (he : 10 ∉ e) (hE : TrimSpace e = []) :
    headerLoop ((ls.flatMap (fun l => l ++ [10]) ++ (e ++ 10 :: rest)).length + 1)
        (ls.flatMap (fun l => l ++ [10]) ++ (e ++ 10 :: rest)) []
        = (storeAll [] (pairsOf ls), rest)
      ∧ (∀ line, 58 ∉ line → headerPair line = none)
      ∧ (∀ a b, 58 ∉ a → headerPair (a ++ 58 :: b) = some (TrimSpace a, TrimSpace b))
      ∧ (((pairsOf ls).map Prod.fst).Nodup → storeAll [] (pairsOf ls) = pairsOf ls) := by
  refine ⟨?_, ?_, ?_, ?_⟩
  · apply headerLoop_lines e rest he hE ls _ [] _ hl
    have := length_block ls
    simp only [List.length_append]
    omega
  · intro line h
    simp [headerPair, cut_none 58 line h]
  · intro a b h
    simp [headerPair, cut_append 58 a b h]
  · intro h
    simpa using storeAll_nodup (pairsOf ls) [] (by simpa using h)

/-- Witness for C9: the block `X-Foo: bar`, `Malformed`, `X-Baz:qux`, closed by
an empty line, gives exactly the two pairs `X-Foo`, `bar` and `X-Baz`, `qux`. -/
theorem headerLoop_block_witness :
    headerLoop ((go "X-Foo: bar\r\nMalformed\r\nX-Baz:qux\r\n\r\n").length + 1)
        (go "X-Foo: bar\r\nMalformed\r\nX-Baz:qux\r\n\r\n") []
      = ([(go "X-Foo", go "bar"), (go "X-Baz", go "qux")], []) := by
  have h := (headerLoop_block [go "X-Foo: bar\r", go "Malformed\r", go "X-Baz:qux\r"]
    (go "\r") [] (by decide) (by decide) (by decide)).1
  have e1 : [go "X-Foo: bar\r", go "Malformed\r", go "X-Baz:qux\r"].flatMap (fun l => l ++ [10])
      ++ (go "\r" ++ 10 :: []) = go "X-Foo: bar\r\nMalformed\r\nX-Baz:qux\r\n\r\n" := by decide
  have e2 : storeAll [] (pairsOf [go "X-Foo: bar\r", go "Malformed\r", go "X-Baz:qux\r"])
      = [(go "X-Foo", go "bar"), (go "X-Baz", go "qux")] := by decide
  rw [e1, e2] at h
  exact h

/-! ## Duplicate header names -/

theorem mapGet_mapSet_self :
    ∀ (m : List (GoString × GoString)) (k v : GoString), mapGet (mapSet m k v) k = some v := by
  intro m
  induction m with
  | nil => intro k v; simp [mapSet, mapGet]
  | cons p m ih =>
    intro k v
    obtain ⟨k', v'⟩ := p
    by_cases h : k' = k
    · simp [mapSet, mapGet, h]
    · simp [mapSet, mapGet, h, ih]

theorem mapGet_mapSet_other :
    ∀ (m : List (GoString × GoString)) (k v k2 : GoString), k2 ≠ k →
      mapGet (mapSet m k v) k2 = mapGet m k2 := by
  intro m
  induction m with
  | nil =>
    intro k v k2 h
    simp [mapSet, mapGet, Ne.symm h]
  | cons p m ih =>
    intro k v k2 h
    obtain ⟨k', v'⟩ := p
    by_cases h1 : k' = k
    · subst h1
      simp [mapSet, mapGet, Ne.symm h]
    · by_cases h2 : k' = k2
      · subst h2
        simp [mapSet, mapGet, h]
      · simp [mapSet, mapGet, h1, h2, ih k v k2 h]

/-- The last pair with a given name, one pair further to the front. -/
theorem lastOccurrence_cons (k : GoString) (p : GoString × GoString)
    (pairs : List (GoString × GoString)) :
    lastOccurrence k (p :: pairs)
      = match lastOccurrence k pairs with
        | some v => some v
        | none => if p.1 = k then some p.2 else none := by
  unfold lastOccurrence
  by_cases h : p.1 = k
  · have e : (p :: pairs).filter (fun p => decide (p.1 = k))
        = p :: pairs.filter (fun p => decide (p.1 = k)) :=
      List.filter_cons_of_pos (by simpa using h)
    rw [e, List.getLast?_cons]
    generalize (pairs.filter (fun p => decide (p.1 = k))).getLast? = o
    cases o <;> simp [h]
  · have e : (p :: pairs).filter (fun p => decide (p.1 = k))
        = pairs.filter (fun p => decide (p.1 = k)) :=
      List.filter_cons_of_neg (by simpa using h)
    rw [e]
    generalize (pairs.filter (fun p => decide (p.1 = k))).getLast? = o
    cases o <;> simp [h]

/-- After storing pairs, a name is bound to the value of its last pair, or to
what the map held before when it has no pair. -/
theorem mapGet_storeAll (k : GoString) :
    ∀ (pairs m : List (GoString × GoString)),
      mapGet (storeAll m pairs) k
        = match lastOccurrence k pairs with
          | some v => some v
          | none => mapGet m k := by
  intro pairs
  induction pairs with
  | nil => intro m; simp [storeAll, lastOccurrence]
  | cons p pairs ih =>
    intro m
    have e : storeAll m (p :: pairs) = storeAll (mapSet m p.1 p.2) pairs := rfl
    rw [e, ih, lastOccurrence_cons]
    cases hl : lastOccurrence k pairs with
    | some v => rfl
    | none =>
      by_cases h : p.1 = k
      · subst h
        simp [mapGet_mapSet_self]
      · simp [h, mapGet_mapSet_other m p.1 p.2 k (Ne.symm h)]

/-- Repeated `Set` calls store the header pairs of the flags in order. -/
theorem headersOf_eq (flags : List GoString) :
    (headersOf flags).m = storeAll [] (flags.filterMap headerPair) := by
  have gen : ∀ (fl : List GoString) (h : headers),
      (fl.foldl headers.Set h).m = storeAll h.m (fl.filterMap headerPair) := by
    intro fl
    induction fl with
    | nil => intro h; simp [storeAll]
    | cons v fl ih =>
      intro h
      rw [List.foldl_cons, ih]
      unfold headers.Set SplitN headerPair
      cases hc : cut 58 v with
      | none => simp [hc, headerPair]
      | some p => simp [hc, headerPair, storeAll]
  exact gen flags ⟨[]⟩

/-- A digit is an ASCII byte other than a space. -/
theorem digit_not_space (d : Nat) (h : 48 ≤ d ∧ d ≤ 57) : d < 128 ∧ asciiSpace d = false := by
  refine ⟨by omega, ?_⟩
  simp [asciiSpace]
  omega

/-- A decimal numeral is its own trimmed form. -/
theorem TrimSpace_decimal (n : Nat) : TrimSpace (decimal n) = decimal n := by
  have hd := decimal_digits n
  have hne := decimal_ne_nil n
  obtain ⟨a, s, e⟩ : ∃ a s, decimal n = a :: s := by
    cases h : decimal n with
    | nil => exact absurd h hne
    | cons a s => exact ⟨a, s, rfl⟩
  obtain ⟨x, z, e2⟩ : ∃ x z, decimal n = x ++ [z] := by
    rcases List.eq_nil_or_concat (decimal n) with h | ⟨x, z, h⟩
    · exact absurd h hne
    · exact ⟨x, z, by simpa using h⟩
  have ha := digit_not_space a (hd a (by simp [e]))
  have hz := digit_not_space z (hd z (by simp [e2]))
  rw [e]
  exact TrimSpace_id a z s x (by rw [← e, e2]) ha.1 ha.2 hz.1 hz.2

/-- Scanning a decimal numeral within the range of `int64` gives its number. -/
theorem Sscanf_decimal (n : Nat) (h : n < 2 ^ 63) : Sscanf (decimal n) = some (n : Int) := by
  have hd := decimal_digits n
  have hne := decimal_ne_nil n
  have hat := atoi_decimal n
  obtain ⟨a, s, e⟩ : ∃ a s, decimal n = a :: s := by
    cases h : decimal n with
    | nil => exact absurd h hne
    | cons a s => exact ⟨a, s, rfl⟩
  rw [e] at hd hat
  have ha := hd a (by simp)
  have hsp := digit_not_space a ha
  have hskip : SkipSpace (a :: s).length (a :: s) = some (a :: s) := by
    have h10 : a ≠ 10 := by omega
    simp [SkipSpace, h10, leadingSpace_cons a s hsp.1 hsp.2]
  have htok : (a :: s).takeWhile acceptsDigit = a :: s := by
    rw [List.takeWhile_eq_self_iff]
    intro d hdm
    have := hd d hdm
    simp [acceptsDigit]
    omega
  have h43 : ¬ (a = 43 ∨ a = 45) := by omega
  have h45 : a ≠ 45 := by omega
  rw [e]
  unfold Sscanf
  rw [hskip]
  dsimp only
  rw [if_neg h43, htok, hat, if_neg (by simp), if_neg h45]
  have hr : -(2 ^ 63 : Int) ≤ (n : Int) ∧ (n : Int) < (2 ^ 63 : Int) := by
    constructor
    · have : (0 : Int) ≤ (n : Int) := Int.ofNat_nonneg n
      omega
    · exact_mod_cast h
  rw [if_pos hr]

/-- C10: for every header block and every name, the parsed header map binds
the name to the trimmed value of the last line of the block that carries it
(and to nothing when no line does); and after repeated `Set` calls the map
binds a name to the trimmed value of the last call that carries it. -/
theorem header_last_wins (ls : List GoString) (e rest : GoString) (flags : List GoString)
    (k : GoString)
    (hl : ∀ l ∈ ls, 10 ∉ l ∧ TrimSpace l ≠ []) (he : 10 ∉ e) (hE : TrimSpace e = []) :
    mapGet (headerLoop ((ls.flatMap (fun l => l ++ [10]) ++ (e ++ 10 :: rest)).length + 1)
        (ls.flatMap (fun l => l ++ [10]) ++ (e ++ 10 :: rest)) []).1 k
        = lastOccurrence k (pairsOf ls)
      ∧ mapGet (headersOf flags).m k = lastOccurrence k (flags.filterMap headerPair) := by
  have hf : ls.length < (ls.flatMap (fun l => l ++ [10]) ++ (e ++ 10 :: rest)).length + 1 := by
    have := length_block ls
    simp only [List.length_append]
    omega
  constructor
  · rw [headerLoop_lines e rest he hE ls _ [] hf hl]
    simp only
    rw [mapGet_storeAll]
    cases lastOccurrence k (pairsOf ls) <;> rfl
  · rw [headersOf_eq, mapGet_storeAll]
    cases lastOccurrence k (flags.filterMap headerPair) <;> rfl

/-- Witness for C10: `X-A` occurs on the first and on the third line. -/
theorem header_last_wins_witness :
    mapGet (headerLoop
        (([go "X-A: 1\r", go "X-B: 2\r", go "X-A: 3\r"].flatMap (fun l => l ++ [10])
          ++ (go "\r" ++ 10 :: go "body")).length + 1)
        ([go "X-A: 1\r", go "X-B: 2\r", go "X-A: 3\r"].flatMap (fun l => l ++ [10])
          ++ (go "\r" ++ 10 :: go "body")) []).1 (go "X-A")
        = lastOccurrence (go "X-A") (pairsOf [go "X-A: 1\r", go "X-B: 2\r", go "X-A: 3\r"])
      ∧ mapGet (headersOf [go "X-A: 1", go "X-A:  2 "]).m (go "X-A")
        = lastOccurrence (go "X-A") ([go "X-A: 1", go "X-A:  2 "].filterMap headerPair) :=
  header_last_wins [go "X-A: 1\r", go "X-B: 2\r", go "X-A: 3\r"] (go "\r") (go "body")
    [go "X-A: 1", go "X-A:  2 "] (go "X-A") (by decide) (by decide) (by decide)

/-! ## Reading a whole response -/

/-- C8: for every status line without line feed that is its own trimmed form
and every body shorter than `2^63` bytes that `make` can allocate (whatever
the allocation limit of the platform), the response part of `main`, run on
the status line followed by `\r\nContent-Length: <byte length of body>\r\n\r\n`
and the body, succeeds with that status line, a header map that binds
`Content-Length` to the decimal length, and that body. -/
theorem readResponse_roundtrip (maxAlloc : Nat) (s b : GoString)
    (h1 : 10 ∉ s) (h2 : TrimSpace s = s) (h3 : b.length < 2 ^ 63) (h4 : b.length ≤ maxAlloc) :
    readResponse maxAlloc
        (s ++ go "\r\nContent-Length: " ++ decimal (len b) ++ go "\r\n\r\n" ++ b)
      = .ok ⟨s, [(go "Content-Length", decimal (len b))], b⟩ := by
  have hd := decimal_digits (len b)
  have hne := decimal_ne_nil (len b)
  -- the stream as lines
  have a1 : go "\r\nContent-Length: " = [13] ++ 10 :: go "Content-Length: " := by decide
  have a2 : go "\r\n\r\n" = [13] ++ 10 :: ([13] ++ 10 :: []) := by decide
  have hstream : s ++ go "\r\nContent-Length: " ++ decimal (len b) ++ go "\r\n\r\n" ++ b
      = (s ++ [13]) ++ 10 ::
          ([go "Content-Length: " ++ decimal (len b) ++ [13]].flatMap (fun l => l ++ [10])
            ++ ([13] ++ 10 :: b)) := by
    rw [a1, a2]; simp
  have hs13 : 10 ∉ s ++ [13] := by
    intro hm
    simp only [List.mem_append, List.mem_singleton] at hm
    rcases hm with h | h
    · exact h1 h
    · exact absurd h (by decide)
  have hstatus : TrimSpace ((s ++ [13]) ++ [10]) = s := by
    rw [TrimSpace_snoc _ 10 (by decide), TrimSpace_snoc _ 13 (by decide), h2]
  -- the header line
  have hdec10 : 10 ∉ decimal (len b) := fun hm => by have := hd 10 hm; omega
  have hline10 : 10 ∉ go "Content-Length: " ++ decimal (len b) ++ [13] := by
    intro hm
    simp only [List.mem_append, List.mem_singleton] at hm
    rcases hm with (h | h) | h
    · exact absurd h (by decide)
    · exact hdec10 h
    · exact absurd h (by decide)
  obtain ⟨x, z, e2⟩ : ∃ x z, decimal (len b) = x ++ [z] := by
    rcases List.eq_nil_or_concat (decimal (len b)) with h | ⟨x, z, h⟩
    · exact absurd h hne
    · exact ⟨x, z, by simpa using h⟩
  have hz := digit_not_space z (hd z (by simp [e2]))
  have hC : go "Content-Length: " = 67 :: go "ontent-Length: " := by decide
  have htrim : TrimSpace (go "Content-Length: " ++ decimal (len b) ++ [13])
      = go "Content-Length: " ++ decimal (len b) := by
    rw [TrimSpace_snoc _ 13 (by decide), hC]
    exact TrimSpace_id 67 z (go "ontent-Length: " ++ decimal (len b))
      (67 :: (go "ontent-Length: " ++ x)) (by rw [e2]; simp)
      (by decide) (by decide) hz.1 hz.2
  have hpair : headerPair (go "Content-Length: " ++ decimal (len b))
      = some (go "Content-Length", decimal (len b)) := by
    have e3 : go "Content-Length: " ++ decimal (len b)
        = go "Content-Length" ++ 58 :: (32 :: decimal (len b)) := by
      have : go "Content-Length: " = go "Content-Length" ++ 58 :: [32] := by decide
      rw [this]; simp
    have e4 : TrimSpace (go "Content-Length") = go "Content-Length" := by decide
    rw [e3]
    simp only [headerPair, cut_append 58 _ _ (by decide : 58 ∉ go "Content-Length"), e4,
      TrimSpace_cons _ 32 (by decide), TrimSpace_decimal]
  have hloop : headerLoop
      (([go "Content-Length: " ++ decimal (len b) ++ [13]].flatMap (fun l => l ++ [10])
          ++ ([13] ++ 10 :: b)).length + 1)
      ([go "Content-Length: " ++ decimal (len b) ++ [13]].flatMap (fun l => l ++ [10])
          ++ ([13] ++ 10 :: b)) []
      = ([(go "Content-Length", decimal (len b))], b) := by
    rw [headerLoop_lines [13] b (by decide) (by decide) _ _ [] (by simp)]
    · have htrim2 := htrim
      simp only [List.append_assoc] at htrim2
      simp [pairsOf, htrim2, hpair, storeAll, mapSet]
    · intro l hl
      simp only [List.mem_singleton] at hl
      subst hl
      refine ⟨hline10, ?_⟩
      rw [htrim, hC]
      simp
  have hcl : contentLength [(go "Content-Length", decimal (len b))] = (len b : Int) := by
    simp [contentLength, mapGet, Sscanf_decimal (len b) h3]
  rw [hstream]
  unfold readResponse
  simp only [ReadString_line _ _ hs13, hstatus, hloop, hcl]
  have hnn : ¬ (((len b : Nat) : Int) < 0 ∨ (maxAlloc : Int) < ((len b : Nat) : Int)) := by
    have h0 : (0 : Int) ≤ ((len b : Nat) : Int) := Int.ofNat_nonneg _
    have h5 : ((len b : Nat) : Int) ≤ (maxAlloc : Int) := by
      unfold len
      exact_mod_cast h4
    omega
  rw [if_neg hnn]
  simp [ReadFull, len]

/-- Witness for C8: the canned response of the specification gives the status
line `HTTP/1.1 200 OK`, the header `Content-Length` bound to `5`, and the body
`hello`. -/
theorem readResponse_roundtrip_witness :
    readResponse maxAlloc64 (go "HTTP/1.1 200 OK\r\nContent-Length: 5\r\n\r\nhello")
      = .ok ⟨go "HTTP/1.1 200 OK", [(go "Content-Length", go "5")], go "hello"⟩ := by
  have h := readResponse_roundtrip maxAlloc64 (go "HTTP/1.1 200 OK") (go "hello")
    (by decide) (by decide) (by decide) (by decide)
  have e1 : go "HTTP/1.1 200 OK" ++ go "\r\nContent-Length: " ++ decimal (len (go "hello"))
      ++ go "\r\n\r\n" ++ go "hello"
      = go "HTTP/1.1 200 OK\r\nContent-Length: 5\r\n\r\nhello" := by decide
  have e2 : decimal (len (go "hello")) = go "5" := by decide
  rw [e1, e2] at h
  exact h

/-! ## Evaluations on concrete input -/

/-- White space of one and of several bytes is trimmed on both sides. -/
theorem TrimSpace_examples :
    TrimSpace (go " \t a b\u00a0\u2003\r\n") = go "a b"
      ∧ TrimSpace (go "\u3000 ") = []
      ∧ (headers.Set ⟨[]⟩ (go "X-Foo:  bar:baz ")).m = [(go "X-Foo", go "bar:baz")] := by
  decide

/-- The scan of a number takes a sign and the leading digits, stops at the
first other byte (an underscore too), and fails without a digit and outside
the range of `int64`. -/
theorem Sscanf_examples :
    Sscanf (go "-5") = some (-5) ∧ Sscanf (go "1_0") = some 1 ∧ Sscanf (go "5_") = some 5
      ∧ Sscanf (go "12abc") = some 12 ∧ Sscanf (go "+7") = some 7
      ∧ Sscanf (go "abc") = none ∧ Sscanf (go "_5") = none ∧ Sscanf (go "-") = none
      ∧ Sscanf (go "9223372036854775807") = some 9223372036854775807
      ∧ Sscanf (go "9223372036854775808") = none := by
  decide

/-! ## The body length and the body read -/

/-- C11 (code defect): for the header value `-5` the scan stores `-5`, so
`contentLength` is negative and `make([]byte, contentLength)` panics: the
response `HTTP/1.1 200 OK\r\nContent-Length: -5\r\n\r\n` ends in that panic.
An absent header and the value `abc` give `0`, the value `5` gives `5`. -/
theorem contentLength_negative :
    contentLength [(go "Content-Length", go "-5")] = -5
      ∧ readResponse maxAlloc64 (go "HTTP/1.1 200 OK\r\nContent-Length: -5\r\n\r\n")
          = .error .lenOutOfRange
      ∧ contentLength [] = 0
      ∧ contentLength [(go "Content-Length", go "abc")] = 0
      ∧ contentLength [(go "Content-Length", go "5")] = 5 := by
  decide

/-- C12 (as stated) fails: the stream
`HTTP/1.1 200 OK\r\nContent-Length: 9223372036854775807\r\n\r\nabc` declares
more bytes than the three that follow, yet the response part does not end in a
failed body read: `make` panics before `io.ReadFull` is called. -/
theorem readResponse_huge_length_counterexample :
    contentLength [(go "Content-Length", go "9223372036854775807")] = 9223372036854775807
      ∧ readResponse maxAlloc64
          (go "HTTP/1.1 200 OK\r\nContent-Length: 9223372036854775807\r\n\r\nabc")
        = .error .lenOutOfRange := by
  decide

/-- C12 (amended): for every response stream and every allocation limit, when
the declared `Content-Length` is greater than the number of bytes left after
the header block and within the allocation limit, the body read fails (with
`io.EOF` or `io.ErrUnexpectedEOF`); when it is above the allocation limit the
response part fails in `make`; and whenever the response part succeeds the
body has exactly the declared number of bytes.  A stream with three of five
declared bytes fails with `io.ErrUnexpectedEOF` (also when the header value is
`5_`), one with none of them with `io.EOF`. -/
theorem readResponse_body_length (maxAlloc : Nat) (conn : GoString) :
    ((((headerLoop ((ReadString conn 10).2.2.length + 1) (ReadString conn 10).2.2 []).2.length
          : Nat) : Int)
        < contentLength (headerLoop ((ReadString conn 10).2.2.length + 1)
            (ReadString conn 10).2.2 []).1 →
        contentLength (headerLoop ((ReadString conn 10).2.2.length + 1)
            (ReadString conn 10).2.2 []).1 ≤ (maxAlloc : Int) →
        readResponse maxAlloc conn = .error .EOF
          ∨ readResponse maxAlloc conn = .error .ErrUnexpectedEOF)
      ∧ ((maxAlloc : Int) < contentLength (headerLoop ((ReadString conn 10).2.2.length + 1)
            (ReadString conn 10).2.2 []).1 →
          readResponse maxAlloc conn = .error .lenOutOfRange)
      ∧ (∀ r, readResponse maxAlloc conn = .ok r →
          (r.body.length : Int) = contentLength r.headers)
      ∧ readResponse maxAlloc64 (go "HTTP/1.1 200 OK\r\nContent-Length: 5\r\n\r\nhel")
          = .error .ErrUnexpectedEOF
      ∧ readResponse maxAlloc64 (go "HTTP/1.1 200 OK\r\nContent-Length: 5_\r\n\r\nhel")
          = .error .ErrUnexpectedEOF
      ∧ readResponse maxAlloc64 (go "HTTP/1.1 200 OK\r\nContent-Length: 5\r\n\r\n")
          = .error .EOF := by
  refine ⟨?_, ?_, ?_, by decide, by decide, by decide⟩
  · intro h hmax
    unfold readResponse
    simp only
    generalize headerLoop ((ReadString conn 10).2.2.length + 1) (ReadString conn 10).2.2 [] = hl
      at h hmax ⊢
    have hn : ¬ (contentLength hl.1 < 0 ∨ (maxAlloc : Int) < contentLength hl.1) := by
      have : (0 : Int) ≤ (hl.2.length : Int) := Int.ofNat_nonneg _
      omega
    have hlen : ¬ (contentLength hl.1).toNat ≤ hl.2.length := by
      intro hle
      have h0 : (0 : Int) ≤ contentLength hl.1 := by
        have : (0 : Int) ≤ (hl.2.length : Int) := Int.ofNat_nonneg _
        omega
      have := Int.toNat_of_nonneg h0
      omega
    rw [if_neg hn]
    simp only [ReadFull, hlen, if_false]
    by_cases he : hl.2 = []
    · left; simp [he]
    · right; simp [he]
  · intro hmax
    unfold readResponse
    simp only
    rw [if_pos (Or.inr hmax)]
  · intro r hr
    unfold readResponse at hr
    simp only at hr
    generalize headerLoop ((ReadString conn 10).2.2.length + 1) (ReadString conn 10).2.2 [] = hl
      at hr
    by_cases hn : contentLength hl.1 < 0 ∨ (maxAlloc : Int) < contentLength hl.1
    · rw [if_pos hn] at hr
      cases hr
    · rw [if_neg hn] at hr
      simp only [ReadFull] at hr
      by_cases hlen : (contentLength hl.1).toNat ≤ hl.2.length
      · simp only [hlen, if_true] at hr
        injection hr with hr
        subst hr
        simp only [List.length_take]
        have h0 : (0 : Int) ≤ contentLength hl.1 := by omega
        have := Int.toNat_of_nonneg h0
        omega
      · rw [if_neg hlen] at hr
        by_cases he : hl.2 = []
        · rw [if_pos he] at hr
          cases hr
        · rw [if_neg he] at hr
          cases hr

/-! ## The end of the stream -/

/-- C13 (as stated) fails: on the empty stream `ReadString` reports the end of
the stream, yet the response part completes with an empty status line, no
headers and an empty body. -/
theorem readResponse_empty_counterexample :
    (ReadString [] 10).2.1 = true ∧ readResponse maxAlloc64 [] = .ok ⟨[], [], []⟩ := by
  decide

/-- C13 (amended): when the stream ends before the first line feed (the empty
stream included), the end of the stream is ignored and the response part
completes with the trimmed bytes as its status line, no headers and an empty
body. -/
theorem readResponse_no_line (maxAlloc : Nat) (conn : GoString) (h : 10 ∉ conn) :
    (ReadString conn 10).2.1 = true
      ∧ readResponse maxAlloc conn = .ok ⟨TrimSpace conn, [], []⟩ := by
  have hr : ReadString conn 10 = (conn, true, []) := by
    simp [ReadString, cut_none 10 conn h]
  have hl : headerLoop 1 [] [] = ([], []) := by decide
  have hc : contentLength [] = 0 := by decide
  refine ⟨by rw [hr], ?_⟩
  unfold readResponse
  simp only [hr, List.length_nil, Nat.zero_add, hl, hc]
  have hn : ¬ ((0 : Int) < 0 ∨ (maxAlloc : Int) < 0) := by
    have : (0 : Int) ≤ (maxAlloc : Int) := Int.ofNat_nonneg _
    omega
  rw [if_neg hn]
  simp [ReadFull]

/-- Witness for C13 (amended): the empty stream. -/
theorem readResponse_no_line_witness :
    (ReadString [] 10).2.1 = true
      ∧ readResponse maxAlloc64 [] = .ok ⟨TrimSpace [], [], []⟩ :=
  readResponse_no_line maxAlloc64 [] (by decide)

/-- The loop over lines that are not empty after trimming, whatever follows
them. -/
theorem headerLoop_prefix_lines (tail : GoString) :
    ∀ (ls : List GoString) (f : Nat) (m : List (GoString × GoString)),
      (∀ l ∈ ls, 10 ∉ l ∧ TrimSpace l ≠ []) →
      headerLoop (ls.length + f) (ls.flatMap (fun l => l ++ [10]) ++ tail) m
        = headerLoop f tail (storeAll m (pairsOf ls)) := by
  intro ls
  induction ls with
  | nil => intro f m _; simp [storeAll, pairsOf]
  | cons l ls ih =>
    intro f m h
    have hl := h l (by simp)
    have e1 : (l :: ls).flatMap (fun l => l ++ [10]) ++ tail
        = l ++ 10 :: (ls.flatMap (fun l => l ++ [10]) ++ tail) := by simp
    have e2 : (l :: ls).length + f = (ls.length + f) + 1 := by simp; omega
    rw [e1, e2, headerLoop_line _ l _ m hl.1 hl.2, ih f _ (fun x hx => h x (by simp [hx]))]
    cases hp : headerPair (TrimSpace l) with
    | none => simp [storeAll, pairsOf, hp]
    | some p => simp [storeAll, pairsOf, hp]

/-- The loop on the last bytes of a stream that ends without a line feed: the
bytes are read as one more line, and the read at the end of the stream gives
the empty line that ends the loop. -/
theorem headerLoop_last (last : GoString) (f : Nat) (m : List (GoString × GoString))
    (h : 10 ∉ last) (hf : last.length + 1 ≤ f) :
    headerLoop f last m = (storeAll m (pairsOf [last]), []) := by
  have hr : ReadString last 10 = (last, true, []) := by
    simp [ReadString, cut_none 10 last h]
  have hr0 : ReadString [] 10 = ([], true, []) := by decide
  have ht0 : TrimSpace [] = [] := by decide
  by_cases ht : TrimSpace last = []
  · obtain ⟨g, rfl⟩ : ∃ g, f = g + 1 := ⟨f - 1, by omega⟩
    have hp : headerPair [] = none := by decide
    simp [headerLoop, hr, ht, storeAll, pairsOf, hp]
  · have hne : last ≠ [] := by
      intro e
      rw [e] at ht
      exact ht ht0
    have hlen : 0 < last.length := List.length_pos.2 hne
    obtain ⟨g, rfl⟩ : ∃ g, f = g + 1 + 1 := ⟨f - 2, by omega⟩
    have step : headerLoop (g + 1 + 1) last m
        = headerLoop (g + 1) [] (match headerPair (TrimSpace last) with
            | some p => mapSet m p.1 p.2
            | none => m) := by
      rw [← SplitN_headerPair]
      simp only [headerLoop, hr, ht, if_false]
      unfold SplitN
      cases hc : cut 58 (TrimSpace last) with
      | none => rfl
      | some p => rfl
    have fin : ∀ m2 : List (GoString × GoString), headerLoop (g + 1) [] m2 = (m2, []) := by
      intro m2
      simp [headerLoop, hr0, ht0]
    rw [step, fin]
    cases hp : headerPair (TrimSpace last) with
    | none => simp [storeAll, pairsOf, hp]
    | some p => simp [storeAll, pairsOf, hp]

/-- The pairs of a list of lines with one more line at its end. -/
theorem storeAll_pairsOf_append (m : List (GoString × GoString)) (ls : List GoString)
    (last : GoString) :
    storeAll (storeAll m (pairsOf ls)) (pairsOf [last]) = storeAll m (pairsOf (ls ++ [last])) := by
  simp [storeAll, pairsOf, List.filterMap_append, List.foldl_append]

/-- C14 (as stated) fails: the stream
`HTTP/1.1 200 OK\r\nContent-Length: 0\r\nX-A: b`, which ends inside the header
block, is reported as a success with both headers and an empty body. -/
theorem readResponse_eof_in_headers_counterexample :
    readResponse maxAlloc64 (go "HTTP/1.1 200 OK\r\nContent-Length: 0\r\nX-A: b")
      = .ok ⟨go "HTTP/1.1 200 OK", [(go "Content-Length", go "0"), (go "X-A", go "b")], []⟩ := by
  decide

/-- C14 (amended): for every response stream that ends inside the header block
(a status line, lines that are not empty after trimming, and last bytes without
line feed), the end of the stream is taken as the end of the header block: with
the headers read up to there and a body length that is not negative and within
the allocation limit, the response part succeeds with an empty body when the
body length is `0` and fails with `io.EOF` when it is positive. -/
theorem readResponse_eof_in_headers (maxAlloc : Nat) (st : GoString) (ls : List GoString)
    (last : GoString)
    (hst : 10 ∉ st) (hl : ∀ l ∈ ls, 10 ∉ l ∧ TrimSpace l ≠ []) (hlast : 10 ∉ last)
    (hnn : 0 ≤ contentLength (storeAll [] (pairsOf (ls ++ [last]))))
    (hmax : contentLength (storeAll [] (pairsOf (ls ++ [last]))) ≤ (maxAlloc : Int)) :
    readResponse maxAlloc (st ++ 10 :: (ls.flatMap (fun l => l ++ [10]) ++ last))
      = if contentLength (storeAll [] (pairsOf (ls ++ [last]))) = 0 then
          .ok ⟨TrimSpace st, storeAll [] (pairsOf (ls ++ [last])), []⟩
        else .error .EOF := by
  have hstatus : TrimSpace (st ++ [10]) = TrimSpace st := TrimSpace_snoc st 10 (by decide)
  have hfuel : (ls.flatMap (fun l => l ++ [10]) ++ last).length + 1
      = ls.length + ((ls.flatMap (fun l => l ++ [10]) ++ last).length + 1 - ls.length) := by
    have := length_block ls
    simp only [List.length_append]
    omega
  have hloop : headerLoop ((ls.flatMap (fun l => l ++ [10]) ++ last).length + 1)
      (ls.flatMap (fun l => l ++ [10]) ++ last) []
      = (storeAll [] (pairsOf (ls ++ [last])), []) := by
    rw [hfuel, headerLoop_prefix_lines last ls _ [] hl,
      headerLoop_last last _ _ hlast (by
        have := length_block ls
        simp only [List.length_append]
        omega),
      storeAll_pairsOf_append]
  unfold readResponse
  simp only [ReadString_line st _ hst, hstatus, hloop]
  generalize contentLength (storeAll [] (pairsOf (ls ++ [last]))) = n at hnn hmax ⊢
  have hneg : ¬ (n < 0 ∨ (maxAlloc : Int) < n) := by omega
  rw [if_neg hneg]
  by_cases h0 : n = 0
  · subst h0
    simp [ReadFull]
  · have hpos : ¬ n.toNat ≤ 0 := by
      have := Int.toNat_of_nonneg hnn
      omega
    simp [ReadFull, h0, hpos]

/-- Witness for C14 (amended): a stream that ends in the header line
`Content-Length: 1_0`; the scan stops at the underscore, the body length is
`1`, and the body read fails with `io.EOF`. -/
theorem readResponse_eof_in_headers_witness :
    contentLength (storeAll [] (pairsOf ([] ++ [go "Content-Length: 1_0"]))) = 1
      ∧ readResponse maxAlloc64 (go "HTTP/1.1 200 OK\r\nContent-Length: 1_0") = .error .EOF := by
  have h := readResponse_eof_in_headers maxAlloc64 (go "HTTP/1.1 200 OK\r") []
    (go "Content-Length: 1_0") (by decide) (by decide) (by decide) (by decide) (by decide)
  have e1 : go "HTTP/1.1 200 OK\r" ++ 10 ::
      (([] : List GoString).flatMap (fun l => l ++ [10]) ++ go "Content-Length: 1_0")
      = go "HTTP/1.1 200 OK\r\nContent-Length: 1_0" := by decide
  have e2 : contentLength (storeAll [] (pairsOf ([] ++ [go "Content-Length: 1_0"]))) = 1 := by
    decide
  rw [e1, e2] at h
  exact ⟨e2, by rw [h]; decide⟩

/-! ## The `Host` line -/

/-- A text always has a last line. -/
theorem splitLF_snoc_form (a : GoString) :
    ∃ init last, splitLF a = init ++ [last]
      ∧ ∀ b, 10 ∉ b → splitLF (a ++ b) = init ++ [last ++ b] := by
  induction a with
  | nil =>
    refine ⟨[], [], by simp [splitLF], ?_⟩
    intro b hb
    induction b with
    | nil => simp [splitLF]
    | cons c b ih =>
      have hc : c ≠ 10 := fun e => hb (by simp [e])
      have hb2 : 10 ∉ b := fun e => hb (by simp [e])
      have := ih hb2
      simp only [List.nil_append] at this ⊢
      simp [splitLF, hc, this]
  | cons c a ih =>
    obtain ⟨init, last, h1, h2⟩ := ih
    by_cases hc : c = 10
    · refine ⟨[] :: init, last, by simp [splitLF, hc, h1], ?_⟩
      intro b hb
      simp [splitLF, hc, h2 b hb]
    · cases init with
      | nil =>
        refine ⟨[], c :: last, by simp [splitLF, hc, h1], ?_⟩
        intro b hb
        have := h2 b hb
        simp only [List.nil_append] at this
        simp [splitLF, hc, this]
      | cons x init =>
        refine ⟨(c :: x) :: init, last, by simp [splitLF, hc, h1], ?_⟩
        intro b hb
        have := h2 b hb
        simp [splitLF, hc, this]

/-- The lines of a text cut at a line feed are the lines of the two parts. -/
theorem splitLF_append_LF (x y : GoString) :
    splitLF (x ++ 10 :: y) = splitLF x ++ splitLF y := by
  induction x with
  | nil => simp [splitLF]
  | cons c x ih =>
    by_cases hc : c = 10
    · simp [splitLF, hc, ih]
    · obtain ⟨init, last, h1, _⟩ := splitLF_snoc_form x
      cases init with
      | nil => simp [splitLF, hc, ih, h1]
      | cons a init => simp [splitLF, hc, ih, h1]

/-- No line of a text followed by CR begins with a CR-free text with which no
line of the text itself begins. -/
theorem lines_snoc_CR (p body : GoString) (hp : p.getLast? ≠ some 13)
    (hb : ∀ l ∈ splitLF body, ¬ p <+: l) :
    ∀ l ∈ splitLF (body ++ [13]), ¬ p <+: l := by
  obtain ⟨init, last, h1, h2⟩ := splitLF_snoc_form body
  rw [h2 [13] (by decide)]
  intro l hl
  simp only [List.mem_append, List.mem_singleton] at hl
  rcases hl with h | h
  · exact hb l (by rw [h1]; simp [h])
  · subst h
    intro hpre
    rcases List.prefix_concat_iff.1 hpre with h3 | h3
    · apply hp
      rw [h3]
      simp
    · exact hb last (by rw [h1]; simp) h3

/-- The entry lines of the specification are the lines `String` formats. -/
theorem specLines_eq (entries : List (GoString × GoString)) :
    entries.flatMap (fun kv => kv.1 ++ go ":" ++ kv.2 ++ go "\r\n")
      = entries.flatMap headerLine := by
  have a1 : go ":" = [58] := by decide
  have a2 : go "\r\n" = [13, 10] := by decide
  rw [a1, a2]
  simp only [List.flatMap]
  congr 1
  apply List.map_congr_left
  intro kv _
  simp [headerLine]

/-- For a header set without `%` the output is the request of the
specification, with the entries in iteration order. -/
theorem makePayload_closed (slow : SlowPath) (method uri host body : GoString) (hs : headers)
    (h : percentFree hs) :
    makePayload slow method uri host body hs = payloadSpec method uri host body hs.m := by
  have e3 : go "\r\nConnection: close\r\n\r\n"
      = go "\r\n" ++ go "Connection: close\r\n" ++ go "\r\n" := by decide
  unfold payloadSpec payloadTail
  rw [specLines_eq]
  by_cases hm : method = MethodPost
  · subst hm
    have : MethodPost = go "POST" := rfl
    rw [makePayload_post slow uri host body hs h, if_pos this, e3]
    simp only [List.append_assoc]
  · have : ¬ method = go "POST" := hm
    rw [makePayload_other slow method uri host body hs hm h, if_neg this]

/-- The request of the specification, cut into its first two lines and the
rest. -/
theorem payloadSpec_shape (method uri host body : GoString)
    (entries : List (GoString × GoString)) :
    payloadSpec method uri host body entries
      = (method ++ (go " " ++ (uri ++ go " HTTP/1.1\r"))) ++ 10 ::
          ((go "Host: " ++ (host ++ go "\r")) ++ 10 ::
            (entries.flatMap headerLine ++ payloadTail method body)) := by
  have a1 : go " HTTP/1.1\r\nHost: " = go " HTTP/1.1\r" ++ 10 :: go "Host: " := by decide
  have a2 : go "\r\n" = go "\r" ++ [10] := by decide
  unfold payloadSpec
  rw [specLines_eq, a1]
  conv_lhs => rw [a2]
  simp only [List.append_assoc, List.singleton_append, List.cons_append, List.nil_append]

/-- No line of the tail of a request begins with `Host:` when no line of the
body does. -/
theorem payloadTail_lines (method body : GoString)
    (hb : ∀ l ∈ splitLF body, ¬ go "Host:" <+: l) :
    ∀ l ∈ splitLF (payloadTail method body), ¬ go "Host:" <+: l := by
  unfold payloadTail
  by_cases hm : method = go "POST"
  · rw [if_pos hm]
    have hd := decimal_digits (len body)
    have e : go "Content-Length: " ++ decimal (len body) ++ go "\r\nConnection: close\r\n\r\n"
          ++ body ++ go "\r\n"
        = (go "Content-Length: " ++ decimal (len body) ++ [13]) ++ 10 ::
            (go "Connection: close\r" ++ 10 :: ([13] ++ 10 :: ((body ++ [13]) ++ 10 :: []))) := by
      have a1 : go "\r\nConnection: close\r\n\r\n"
          = [13] ++ 10 :: (go "Connection: close\r" ++ 10 :: ([13] ++ [10])) := by decide
      have a2 : go "\r\n" = [13, 10] := by decide
      rw [a1, a2]; simp
    have l1 : 10 ∉ go "Content-Length: " ++ decimal (len body) ++ [13] := by
      intro hmem
      simp only [List.mem_append, List.mem_singleton] at hmem
      rcases hmem with (h | h) | h
      · exact absurd h (by decide)
      · have := hd 10 h; omega
      · exact absurd h (by decide)
    rw [e, splitLF_line _ _ l1, splitLF_line _ _ (by decide : 10 ∉ go "Connection: close\r"),
      splitLF_line _ _ (by decide : 10 ∉ [13]), splitLF_append_LF]
    intro l hl
    simp only [List.mem_cons, List.mem_append] at hl
    have eH : go "Host:" = 72 :: go "ost:" := by decide
    rcases hl with h | h | h | h | h
    · rw [h]
      have eC : go "Content-Length: " = 67 :: go "ontent-Length: " := by decide
      rw [eH, eC]; simp
    · rw [h]; decide
    · rw [h]; decide
    · exact lines_snoc_CR (go "Host:") body (by decide) hb l h
    · have : l = [] := by simpa [splitLF] using h
      rw [this]; decide
  · rw [if_neg hm]
    intro l hl
    have eT : splitLF (go "\r\n") = [[13], []] := by decide
    rw [eT] at hl
    simp only [List.mem_cons, List.mem_singleton, List.not_mem_nil, or_false] at hl
    rcases hl with h | h <;> rw [h] <;> decide

/-- C15 (as stated) fails: with the header set built from the flag
`Host: evil.example` the `GET` request has two lines that begin with `Host:`. -/
theorem makePayload_two_host_lines_counterexample :
    makePayload noSlow (go "GET") (go "/") (go "example.com") []
          (headersOf [go "Host: evil.example"])
        = go "GET / HTTP/1.1\r\nHost: example.com\r\nHost:evil.example\r\n\r\n"
      ∧ (splitLF (makePayload noSlow (go "GET") (go "/") (go "example.com") []
            (headersOf [go "Host: evil.example"]))).filter
          (fun l => decide (go "Host:" <+: l))
        = [go "Host: example.com\r", go "Host:evil.example\r"] := by
  decide

/-- Among the header lines, those that begin with `Host:` are the lines of the
entries named `Host`. -/
theorem filter_host_headerLines (m : List (GoString × GoString))
    (h : ∀ kv ∈ m, 58 ∉ kv.1) :
    (m.map (fun kv : GoString × GoString => kv.1 ++ 58 :: kv.2 ++ [13])).filter
        (fun l => decide (go "Host:" <+: l))
      = (m.filter (fun kv => decide (kv.1 = go "Host"))).map
          (fun kv => go "Host:" ++ kv.2 ++ go "\r") := by
  induction m with
  | nil => rfl
  | cons kv m ih =>
    have ih2 := ih (fun x hx => h x (by simp [hx]))
    have eC : go "Host:" = go "Host" ++ [58] := by decide
    have eR : go "\r" = [13] := by decide
    by_cases hk : kv.1 = go "Host"
    · have hpre : go "Host:" <+: kv.1 ++ 58 :: kv.2 ++ [13] := by
        rw [hk, eC]
        exact ⟨kv.2 ++ [13], by simp⟩
      rw [List.map_cons, List.filter_cons_of_pos (by simpa using hpre),
        List.filter_cons_of_pos (by simpa using hk), List.map_cons, ih2, hk, eC, eR]
      simp
    · have hpre : ¬ go "Host:" <+: kv.1 ++ 58 :: kv.2 ++ [13] := by
        intro hp
        rw [eC] at hp
        have := prefix_colon (go "Host") kv.1 (kv.2 ++ [13]) (by decide) (h kv (by simp))
          (by simpa using hp)
        exact hk this.symm
      rw [List.map_cons, List.filter_cons_of_neg (by simpa using hpre),
        List.filter_cons_of_neg (by simpa using hk), ih2]

/-- C15 (amended): for every supported method, a request-target and host
without line feed, a header set whose names and values have no `%` and no line
feed and whose names have no colon, and a body no line of which begins with
`Host:`, the lines of the output that begin with `Host:` are the line
`Host: <host>` followed by one line `Host:<value>` for each entry of the
header set that is named `Host`; so exactly one line begins with `Host:`, the
line `Host: <host>`, when no entry is named `Host`. -/
theorem makePayload_host_lines (slow : SlowPath) (method uri host body : GoString)
    (hs : headers) (hm : method ∈ allowedMethods) (hu : 10 ∉ uri) (hh : 10 ∉ host)
    (hfree : ∀ kv ∈ hs.m, 37 ∉ kv.1 ∧ 37 ∉ kv.2 ∧ 10 ∉ kv.1 ∧ 10 ∉ kv.2 ∧ 58 ∉ kv.1)
    (hb : ∀ l ∈ splitLF body, ¬ go "Host:" <+: l) :
    (splitLF (makePayload slow method uri host body hs)).filter
          (fun l => decide (go "Host:" <+: l))
        = (go "Host: " ++ host ++ go "\r") ::
            (hs.m.filter (fun kv => decide (kv.1 = go "Host"))).map
              (fun kv => go "Host:" ++ kv.2 ++ go "\r")
      ∧ ((∀ kv ∈ hs.m, kv.1 ≠ go "Host") →
          (splitLF (makePayload slow method uri host body hs)).filter
              (fun l => decide (go "Host:" <+: l))
            = [go "Host: " ++ host ++ go "\r"]) := by
  have hpf : percentFree hs := fun kv hkv => ⟨(hfree kv hkv).1, (hfree kv hkv).2.1⟩
  have eH : go "Host:" = 72 :: go "ost:" := by decide
  have hme : 10 ∉ method := by
    simp only [allowedMethods, List.mem_cons, List.mem_singleton, List.not_mem_nil,
      or_false] at hm
    rcases hm with h | h | h | h <;> rw [h] <;> decide
  have hreq : ∀ t, ¬ go "Host:" <+: method ++ t := by
    intro t
    simp only [allowedMethods, List.mem_cons, List.mem_singleton, List.not_mem_nil,
      or_false] at hm
    have e1 : go "GET" = 71 :: go "ET" := by decide
    have e3 : go "DELETE" = 68 :: go "ELETE" := by decide
    have e4 : go "POST" = 80 :: go "OST" := by decide
    have e5 : go "PUT" = 80 :: go "UT" := by decide
    rcases hm with h | h | h | h <;> rw [h, eH]
    · rw [e1]; simp
    · rw [e3]; simp
    · rw [e4]; simp
    · rw [e5]; simp
  have hhost : go "Host:" <+: go "Host: " ++ (host ++ go "\r") := by
    have : go "Host: " = go "Host:" ++ [32] := by decide
    rw [this, List.append_assoc]
    exact List.prefix_append _ _
  have l1 : 10 ∉ method ++ (go " " ++ (uri ++ go " HTTP/1.1\r")) := by
    intro hmem
    simp only [List.mem_append] at hmem
    rcases hmem with h | h | h | h
    · exact hme h
    · exact absurd h (by decide)
    · exact hu h
    · exact absurd h (by decide)
  have l2 : 10 ∉ go "Host: " ++ (host ++ go "\r") := by
    intro hmem
    simp only [List.mem_append] at hmem
    rcases hmem with h | h | h
    · exact absurd h (by decide)
    · exact hh h
    · exact absurd h (by decide)
  have htail : (splitLF (payloadTail method body)).filter
      (fun l => decide (go "Host:" <+: l)) = [] := by
    rw [List.filter_eq_nil_iff]
    intro l hl
    simpa using payloadTail_lines method body hb l hl
  have main : (splitLF (makePayload slow method uri host body hs)).filter
        (fun l => decide (go "Host:" <+: l))
      = (go "Host: " ++ host ++ go "\r") ::
          (hs.m.filter (fun kv => decide (kv.1 = go "Host"))).map
            (fun kv => go "Host:" ++ kv.2 ++ go "\r") := by
    rw [makePayload_closed slow method uri host body hs hpf, payloadSpec_shape,
      splitLF_line _ _ l1, splitLF_line _ _ l2,
      splitLF_headerLines hs.m _ (fun kv hkv => ⟨(hfree kv hkv).2.2.1, (hfree kv hkv).2.2.2.1⟩),
      List.filter_cons_of_neg (by simpa using hreq _),
      List.filter_cons_of_pos (by simpa using hhost), List.filter_append, htail,
      filter_host_headerLines hs.m (fun kv hkv => (hfree kv hkv).2.2.2.2)]
    simp
  refine ⟨main, ?_⟩
  intro hno
  have hnil : hs.m.filter (fun kv => decide (kv.1 = go "Host")) = [] := by
    rw [List.filter_eq_nil_iff]
    intro kv hkv
    simpa using hno kv hkv
  rw [main, hnil]
  rfl

/-- Witness for C15 (amended): a `POST` request with the body `a=1`, once with
a header set that has an entry named `Host`, which gives the two lines
`Host: example.com` and `Host:evil.example`, and once with a header set that
has none, which gives the one line `Host: example.com`. -/
theorem makePayload_host_lines_witness :
    (splitLF (makePayload noSlow (go "POST") (go "/") (go "example.com") (go "a=1")
        (headersOf [go "X-Foo: bar", go "Host: evil.example"]))).filter
          (fun l => decide (go "Host:" <+: l))
        = [go "Host: example.com\r", go "Host:evil.example\r"]
      ∧ (splitLF (makePayload noSlow (go "POST") (go "/") (go "example.com") (go "a=1")
          (headersOf [go "X-Foo: bar"]))).filter (fun l => decide (go "Host:" <+: l))
        = [go "Host: example.com\r"] := by
  have h1 := (makePayload_host_lines noSlow (go "POST") (go "/") (go "example.com") (go "a=1")
    (headersOf [go "X-Foo: bar", go "Host: evil.example"])
    (by decide) (by decide) (by decide) (by decide) (by decide)).1
  have h2 := (makePayload_host_lines noSlow (go "POST") (go "/") (go "example.com") (go "a=1")
    (headersOf [go "X-Foo: bar"])
    (by decide) (by decide) (by decide) (by decide) (by decide)).2 (by decide)
  have e1 : (go "Host: " ++ go "example.com" ++ go "\r") ::
      ((headersOf [go "X-Foo: bar", go "Host: evil.example"]).m.filter
        (fun kv => decide (kv.1 = go "Host"))).map (fun kv => go "Host:" ++ kv.2 ++ go "\r")
      = [go "Host: example.com\r", go "Host:evil.example\r"] := by decide
  have e2 : [go "Host: " ++ go "example.com" ++ go "\r"] = [go "Host: example.com\r"] := by
    decide
  rw [e1] at h1
  rw [e2] at h2
  exact ⟨h1, h2⟩

/-! ## The whole request -/

/-- C17: for every method, request-target, host and body, and every header set
whose names and values have no `%`, the output is, for an ordering of the
header entries (their iteration order), the method, a blank, the target,
` HTTP/1.1\r\nHost: `, the host, `\r\n`, then `name:value\r\n` for each entry,
and then, for `POST`, `Content-Length: ` with the decimal byte count of the
body, `\r\nConnection: close\r\n\r\n`, the body and `\r\n`, and for every other
method `\r\n`. -/
theorem makePayload_refines (slow : SlowPath) (method uri host body : GoString) (hs : headers)
    (h : percentFree hs) :
    ∃ entries : List (GoString × GoString), entries.Perm hs.m
      ∧ makePayload slow method uri host body hs
        = method ++ go " " ++ uri ++ go " HTTP/1.1\r\nHost: " ++ host ++ go "\r\n"
            ++ entries.flatMap (fun kv => kv.1 ++ go ":" ++ kv.2 ++ go "\r\n")
            ++ (if method = go "POST" then
                  go "Content-Length: " ++ decimal (len body)
                    ++ go "\r\nConnection: close\r\n\r\n" ++ body ++ go "\r\n"
                else go "\r\n") :=
  ⟨hs.m, List.Perm.refl _, makePayload_closed slow method uri host body hs h⟩

/-- Witness for C17: a `POST` request with one header and the body `a=1`. -/
theorem makePayload_refines_witness :
    ∃ entries : List (GoString × GoString), entries.Perm (headersOf [go "X-Foo: bar"]).m
      ∧ makePayload noSlow (go "POST") (go "/") (go "example.com") (go "a=1")
          (headersOf [go "X-Foo: bar"])
        = go "POST" ++ go " " ++ go "/" ++ go " HTTP/1.1\r\nHost: " ++ go "example.com"
            ++ go "\r\n"
            ++ entries.flatMap (fun kv => kv.1 ++ go ":" ++ kv.2 ++ go "\r\n")
            ++ (if go "POST" = go "POST" then
                  go "Content-Length: " ++ decimal (len (go "a=1"))
                    ++ go "\r\nConnection: close\r\n\r\n" ++ go "a=1" ++ go "\r\n"
                else go "\r\n") :=
  makePayload_refines noSlow (go "POST") (go "/") (go "example.com") (go "a=1")
    (headersOf [go "X-Foo: bar"]) (by decide)

/-! ## The port and the end of the header loop -/

/-- C16: for every parsed URL, the port that `main` dials is the port of the
URL when it has one, otherwise `443` when the scheme is exactly `https` and
`80` for every other scheme. -/
theorem port_choice (url : URL) :
    (url.Port ≠ [] → port url = url.Port)
      ∧ (url.Port = [] → url.Scheme = go "https" → port url = go "443")
      ∧ (url.Port = [] → url.Scheme ≠ go "https" → port url = go "80")
      ∧ port ⟨go "http", go "8080", go "example.com", go "/"⟩ = go "8080"
      ∧ port ⟨go "https", [], go "example.com", go "/"⟩ = go "443"
      ∧ port ⟨go "http", [], go "example.com", go "/"⟩ = go "80"
      ∧ port ⟨go "ftp", [], go "example.com", go "/"⟩ = go "80" := by
  refine ⟨?_, ?_, ?_, by decide, by decide, by decide, by decide⟩
  · intro h
    simp [port, h]
  · intro h1 h2
    simp [port, h1, h2, httpsPort]
  · intro h1 h2
    simp [port, h1, h2, httpPort]

/-- A stream without bytes has no line. -/
theorem lineCount_nil : lineCount [] = 0 := by decide

/-- A stream with bytes and without LF has one line. -/
theorem lineCount_noLF (r : GoString) (h : 10 ∉ r) (hne : r ≠ []) : lineCount r = 1 := by
  have hc : r.count 10 = 0 := List.count_eq_zero_of_not_mem h
  have hl : r.getLast? ≠ some 10 := by
    intro e
    exact h (List.mem_of_getLast?_eq_some e)
  simp [lineCount, hc, hne, hl]

/-- Reading a line that ends in LF leaves one line less. -/
theorem lineCount_line (a b : GoString) (h : 10 ∉ a) :
    lineCount (a ++ 10 :: b) = lineCount b + 1 := by
  have hc : a.count 10 = 0 := List.count_eq_zero_of_not_mem h
  have hcount : (a ++ 10 :: b).count 10 = b.count 10 + 1 := by
    simp [List.count_append, hc]
  unfold lineCount
  rw [hcount]
  cases b with
  | nil => simp
  | cons c b =>
    have e : (a ++ 10 :: c :: b).getLast? = (c :: b).getLast? := by
      rw [List.getLast?_append, List.getLast?_cons_cons,
        List.getLast?_eq_getLast (c :: b) (by simp)]
      rfl
    rw [e]
    simp
    omega

/-- One turn of the header loop. -/
theorem headerLoop_step (f : Nat) (r : GoString) (m : List (GoString × GoString)) :
    headerLoop (f + 1) r m
      = if TrimSpace (ReadString r 10).1 = [] then (m, (ReadString r 10).2.2)
        else headerLoop f (ReadString r 10).2.2
          (match headerPair (TrimSpace (ReadString r 10).1) with
            | some p => mapSet m p.1 p.2
            | none => m) := by
  by_cases h : TrimSpace (ReadString r 10).1 = []
  · simp [headerLoop, h]
  · rw [← SplitN_headerPair]
    simp only [headerLoop, h, if_false]
    unfold SplitN
    cases hc : cut 58 (TrimSpace (ReadString r 10).1) with
    | none => rfl
    | some p => rfl

/-- One turn of the header loop with its count. -/
theorem headerLoopSteps_step (f : Nat) (r : GoString) (m : List (GoString × GoString)) :
    headerLoopSteps (f + 1) r m
      = if TrimSpace (ReadString r 10).1 = [] then some (1, (m, (ReadString r 10).2.2))
        else (headerLoopSteps f (ReadString r 10).2.2
          (match headerPair (TrimSpace (ReadString r 10).1) with
            | some p => mapSet m p.1 p.2
            | none => m)).map (fun x => (x.1 + 1, x.2)) := by
  by_cases h : TrimSpace (ReadString r 10).1 = []
  · simp [headerLoopSteps, h]
  · rw [← SplitN_headerPair]
    simp only [headerLoopSteps, h, if_false]
    unfold SplitN
    cases hc : cut 58 (TrimSpace (ReadString r 10).1) with
    | none => rfl
    | some p => rfl

/-- Where there is no split there is no separator. -/
theorem cut_none_not_mem (sep : Nat) (s : GoString) (h : cut sep s = none) : sep ∉ s := by
  induction s with
  | nil => simp
  | cons c s ih =>
    by_cases hc : c = sep
    · simp [cut, hc] at h
    · simp only [cut, hc, if_false, Option.map_eq_none'] at h
      intro hm
      simp only [List.mem_cons] at hm
      rcases hm with h1 | h1
      · exact hc h1.symm
      · exact ih h h1

/-- A turn that reads a line which is not empty after trimming leaves at least
one line less in the stream. -/
theorem lineCount_ReadString (r : GoString) (h : TrimSpace (ReadString r 10).1 ≠ []) :
    lineCount (ReadString r 10).2.2 + 1 ≤ lineCount r := by
  cases hc : cut 10 r with
  | none =>
    have hno : 10 ∉ r := cut_none_not_mem 10 r hc
    have hr : ReadString r 10 = (r, true, []) := by simp [ReadString, hc]
    rw [hr] at h ⊢
    have hne : r ≠ [] := by
      intro e
      rw [e] at h
      exact h (by decide)
    rw [lineCount_noLF r hno hne, lineCount_nil]
  | some p =>
    obtain ⟨a, b⟩ := p
    obtain ⟨e, ha⟩ := cut_some 10 r a b hc
    have hr : ReadString r 10 = (a ++ [10], false, b) := by simp [ReadString, hc]
    rw [hr]
    simp only
    rw [e, lineCount_line a b ha]

/-- With one unit of fuel per line and one more, the loop is left before the
fuel runs out, after at most that many turns, with the result of
`headerLoop`. -/
theorem headerLoopSteps_total :
    ∀ (f : Nat) (r : GoString) (m : List (GoString × GoString)), lineCount r + 1 ≤ f →
      ∃ n, headerLoopSteps f r m = some (n, headerLoop f r m) ∧ n ≤ lineCount r + 1 := by
  intro f
  induction f with
  | zero => intro r m h; omega
  | succ f ih =>
    intro r m h
    rw [headerLoopSteps_step, headerLoop_step]
    by_cases ht : TrimSpace (ReadString r 10).1 = []
    · exact ⟨1, by simp [ht], by omega⟩
    · have hdec := lineCount_ReadString r ht
      obtain ⟨n, hn, hle⟩ := ih (ReadString r 10).2.2
        (match headerPair (TrimSpace (ReadString r 10).1) with
          | some p => mapSet m p.1 p.2
          | none => m) (by omega)
      refine ⟨n + 1, ?_, by omega⟩
      simp only [ht, if_false, hn, Option.map_some']

/-- A stream has at most as many lines as bytes. -/
theorem lineCount_le_length (r : GoString) : lineCount r ≤ r.length := by
  unfold lineCount
  rcases List.eq_nil_or_concat r with h | ⟨ys, a, h⟩
  · simp [h]
  · have e : r = ys ++ [a] := by simpa using h
    subst e
    by_cases ha : a = 10
    · subst ha
      have := List.count_le_length 10 (ys ++ [10])
      simp only [List.getLast?_concat, or_true, if_true] 
      omega
    · have hc : (ys ++ [a]).count 10 = ys.count 10 := by
        simp [List.count_append, List.count_cons, ha]
      have := List.count_le_length 10 ys
      rw [hc]
      simp only [List.length_append, List.length_singleton]
      split <;> omega

/-- C18: for every finite stream the header loop is left before its fuel runs
out whenever the fuel is at least the number of lines left plus one (the byte
count plus one, which `readResponse` supplies, is enough), after at most that
many turns; a line that is empty after trimming ends the loop at once, and at
the end of the stream `ReadString` gives the empty line, which ends it too. -/
theorem headerLoop_terminates (r : GoString) (m : List (GoString × GoString)) (f : Nat)
    (hf : lineCount r + 1 ≤ f) :
    (∃ n, headerLoopSteps f r m = some (n, headerLoop f r m) ∧ n ≤ lineCount r + 1)
      ∧ lineCount r + 1 ≤ r.length + 1
      ∧ (TrimSpace (ReadString r 10).1 = [] →
          headerLoopSteps f r m = some (1, (m, (ReadString r 10).2.2)))
      ∧ ReadString [] 10 = ([], true, [])
      ∧ headerLoopSteps f [] m = some (1, (m, [])) := by
  obtain ⟨g, rfl⟩ : ∃ g, f = g + 1 := ⟨f - 1, by omega⟩
  refine ⟨headerLoopSteps_total (g + 1) r m hf, ?_, ?_, by decide, ?_⟩
  · have := lineCount_le_length r
    omega
  · intro h
    rw [headerLoopSteps_step, if_pos h]
  · rw [headerLoopSteps_step]
    have h0 : TrimSpace (ReadString [] 10).1 = [] := by decide
    rw [if_pos h0]
    rfl

/-- Witness for C18: a stream of one header line, the empty line and a body. -/
theorem headerLoop_terminates_witness :
    (∃ n, headerLoopSteps ((go "X-A: b\r\n\r\nbody").length + 1) (go "X-A: b\r\n\r\nbody") []
          = some (n, headerLoop ((go "X-A: b\r\n\r\nbody").length + 1)
              (go "X-A: b\r\n\r\nbody") [])
        ∧ n ≤ lineCount (go "X-A: b\r\n\r\nbody") + 1)
      ∧ lineCount (go "X-A: b\r\n\r\nbody") + 1 ≤ (go "X-A: b\r\n\r\nbody").length + 1
      ∧ (TrimSpace (ReadString (go "X-A: b\r\n\r\nbody") 10).1 = [] →
          headerLoopSteps ((go "X-A: b\r\n\r\nbody").length + 1) (go "X-A: b\r\n\r\nbody") []
            = some (1, ([], (ReadString (go "X-A: b\r\n\r\nbody") 10).2.2)))
      ∧ ReadString [] 10 = ([], true, [])
      ∧ headerLoopSteps ((go "X-A: b\r\n\r\nbody").length + 1) [] [] = some (1, ([], [])) :=
  headerLoop_terminates (go "X-A: b\r\n\r\nbody") [] ((go "X-A: b\r\n\r\nbody").length + 1)
    (by decide)

/-! ## The spelling of `Content-Length` and of the method -/

/-- A name that no pair carries has no last occurrence. -/
theorem lastOccurrence_none (k : GoString) (pairs : List (GoString × GoString))
    (h : ∀ p ∈ pairs, p.1 ≠ k) : lastOccurrence k pairs = none := by
  have : pairs.filter (fun p => decide (p.1 = k)) = [] := by
    rw [List.filter_eq_nil_iff]
    intro p hp
    simpa using h p hp
  simp [lastOccurrence, this]

/-- C19: for every response (a status line, header lines, the empty line, and
any further bytes) in which no header line has the name `Content-Length` in
exactly this spelling, the body length is `0` and the response part succeeds
with an empty body, whatever follows the header block; `content-length: 5`
does not count. -/
theorem readResponse_case_sensitive (maxAlloc : Nat) (st : GoString) (ls : List GoString)
    (e rest : GoString)
    (hst : 10 ∉ st) (hl : ∀ l ∈ ls, 10 ∉ l ∧ TrimSpace l ≠ []) (he : 10 ∉ e)
    (hE : TrimSpace e = []) (hno : ∀ p ∈ pairsOf ls, p.1 ≠ go "Content-Length") :
    contentLength (storeAll [] (pairsOf ls)) = 0
      ∧ readResponse maxAlloc
          (st ++ 10 :: (ls.flatMap (fun l => l ++ [10]) ++ (e ++ 10 :: rest)))
          = .ok ⟨TrimSpace st, storeAll [] (pairsOf ls), []⟩ := by
  have hget : mapGet (storeAll [] (pairsOf ls)) (go "Content-Length") = none := by
    rw [mapGet_storeAll, lastOccurrence_none _ _ hno]
    rfl
  have hcl : contentLength (storeAll [] (pairsOf ls)) = 0 := by
    simp [contentLength, hget]
  have hstatus : TrimSpace (st ++ [10]) = TrimSpace st := TrimSpace_snoc st 10 (by decide)
  have hloop : headerLoop ((ls.flatMap (fun l => l ++ [10]) ++ (e ++ 10 :: rest)).length + 1)
      (ls.flatMap (fun l => l ++ [10]) ++ (e ++ 10 :: rest)) []
      = (storeAll [] (pairsOf ls), rest) := by
    apply headerLoop_lines e rest he hE ls _ [] _ hl
    have := length_block ls
    simp only [List.length_append]
    omega
  refine ⟨hcl, ?_⟩
  unfold readResponse
  simp only [ReadString_line st _ hst, hstatus, hloop, hcl]
  have hn : ¬ ((0 : Int) < 0 ∨ (maxAlloc : Int) < 0) := by
    have : (0 : Int) ≤ (maxAlloc : Int) := Int.ofNat_nonneg _
    omega
  rw [if_neg hn]
  simp [ReadFull]

/-- Witness for C19: the header `content-length: 5` in front of five bytes. -/
theorem readResponse_case_sensitive_witness :
    readResponse maxAlloc64 (go "HTTP/1.1 200 OK\r\ncontent-length: 5\r\n\r\nhello")
      = .ok ⟨go "HTTP/1.1 200 OK", [(go "content-length", go "5")], []⟩ := by
  have h := (readResponse_case_sensitive maxAlloc64 (go "HTTP/1.1 200 OK\r")
    [go "content-length: 5\r"]
    (go "\r") (go "hello") (by decide) (by decide) (by decide) (by decide) (by decide)).2
  have e1 : go "HTTP/1.1 200 OK\r" ++ 10 ::
      ([go "content-length: 5\r"].flatMap (fun l => l ++ [10]) ++ (go "\r" ++ 10 :: go "hello"))
      = go "HTTP/1.1 200 OK\r\ncontent-length: 5\r\n\r\nhello" := by decide
  have e2 : TrimSpace (go "HTTP/1.1 200 OK\r") = go "HTTP/1.1 200 OK" := by decide
  have e3 : storeAll [] (pairsOf [go "content-length: 5\r"])
      = [(go "content-length", go "5")] := by decide
  rw [e1, e2, e3] at h
  exact h

/-- Upper-casing ASCII text twice is upper-casing it once. -/
theorem ToUpper_ascii_idem (mapUpper : GoString → GoString) (t : GoString)
    (h : t.all (· < 128) = true) :
    ToUpper mapUpper (ToUpper mapUpper t) = ToUpper mapUpper t := by
  have h1 : ToUpper mapUpper t = t.map (fun c => if 97 ≤ c ∧ c ≤ 122 then c - 32 else c) := by
    simp only [ToUpper, h, if_true]
  have h2 : (t.map (fun c => if 97 ≤ c ∧ c ≤ 122 then c - 32 else c)).all (· < 128) = true := by
    rw [List.all_eq_true] at h ⊢
    intro x hx
    rw [List.mem_map] at hx
    obtain ⟨c, hc, rfl⟩ := hx
    have := h c hc
    simp only [decide_eq_true_eq] at this ⊢
    split <;> omega
  rw [h1]
  simp only [ToUpper, h2, if_true, List.map_map]
  apply List.map_congr_left
  intro c _
  simp only [Function.comp]
  by_cases hc : 97 ≤ c ∧ c ≤ 122
  · have h3 : ¬ (97 ≤ c - 32 ∧ c - 32 ≤ 122) := by omega
    simp only [hc, and_self, if_true, h3, if_false]
  · simp only [hc, if_false]

/-- Upper-casing twice is upper-casing once, for every string, as soon as the
Unicode case mapping of the library returns text that upper-casing leaves
alone.  For ASCII strings the library mapping is not consulted. -/
theorem ToUpper_idem (mapUpper : GoString → GoString)
    (hlib : ∀ t : GoString, t.all (· < 128) = false →
      ToUpper mapUpper (mapUpper t) = mapUpper t) (s : GoString) :
    ToUpper mapUpper (ToUpper mapUpper s) = ToUpper mapUpper s := by
  by_cases hs : s.all (· < 128) = true
  · exact ToUpper_ascii_idem mapUpper s hs
  · have hf : s.all (· < 128) = false := by simpa using hs
    have e : ToUpper mapUpper s = mapUpper s := by
      simp only [ToUpper, hf, Bool.false_eq_true, if_false]
    rw [e]
    exact hlib s hf

/-- A string that `validateMethod` accepts is still accepted after
upper-casing, whatever the Unicode case mapping of the library does. -/
theorem validateMethod_upper_of_none (mapUpper : GoString → GoString) (s : GoString)
    (h : validateMethod mapUpper s = none) :
    validateMethod mapUpper (ToUpper mapUpper s) = none := by
  have hmem := (validateLoop_eq_none mapUpper s allowedMethods).1 h
  apply (validateLoop_eq_none mapUpper _ allowedMethods).2
  have hfix : ∀ m ∈ allowedMethods, ToUpper mapUpper m = m := by
    intro m hm
    simp only [allowedMethods, List.mem_cons, List.mem_singleton, List.not_mem_nil,
      or_false] at hm
    rcases hm with h | h | h | h <;> subst h <;>
      (rw [ToUpper_ascii mapUpper _ (by decide)]; decide)
  rw [hfix _ hmem]
  exact hmem

/-- For an ASCII string `validateMethod` gives the same result before and
after upper-casing, whatever the Unicode case mapping of the library does. -/
theorem validateMethod_upper_ascii (mapUpper : GoString → GoString) (s : GoString)
    (hs : s.all (· < 128) = true) :
    validateMethod mapUpper s = validateMethod mapUpper (ToUpper mapUpper s) := by
  have hidem := ToUpper_ascii_idem mapUpper s hs
  have hloop : ∀ (l : List GoString),
      validateLoop mapUpper s l = validateLoop mapUpper (ToUpper mapUpper s) l := by
    intro l
    induction l with
    | nil => rfl
    | cons m l ih => simp only [validateLoop, hidem, ih]
  exact hloop allowedMethods

/-- C20: for every string, `validateMethod` gives the same result for the
string and for its upper-cased form, so it returns `nil` exactly when the
upper-cased string is one of `GET`, `DELETE`, `POST`, `PUT`, and `post` is
accepted; `makePayload` attaches a body only for the method that is exactly
`POST`: for every other method, `post` among them, the output does not depend
on the body.  The Unicode case mapping of the standard library, which
`strings.ToUpper` applies to strings with a byte from `0x80` on, is taken to
return text that upper-casing leaves alone; ASCII strings do not reach it. -/
theorem validateMethod_upper (mapUpper : GoString → GoString) (s : GoString)
    (hlib : ∀ t : GoString, t.all (· < 128) = false →
      ToUpper mapUpper (mapUpper t) = mapUpper t) :
    validateMethod mapUpper s = validateMethod mapUpper (ToUpper mapUpper s)
      ∧ (validateMethod mapUpper s = none
          ↔ ToUpper mapUpper s ∈ [go "GET", go "DELETE", go "POST", go "PUT"])
      ∧ validateMethod mapUpper (go "post") = none
      ∧ (∀ (slow : SlowPath) (method uri host body body2 : GoString) (hs : headers),
          method ≠ go "POST" →
          makePayload slow method uri host body hs = makePayload slow method uri host body2 hs)
      ∧ (∀ (slow : SlowPath) (uri host : GoString),
          makePayload slow (go "post") uri host (go "a=1") ⟨[]⟩
            = go "post " ++ uri ++ go " HTTP/1.1\r\nHost: " ++ host ++ go "\r\n\r\n")
      ∧ (∀ (slow : SlowPath) (uri host body : GoString),
          makePayload slow (go "POST") uri host body ⟨[]⟩
            = go "POST " ++ uri ++ go " HTTP/1.1\r\nHost: " ++ host ++ go "\r\n"
                ++ go "Content-Length: " ++ decimal (len body)
                ++ go "\r\nConnection: close\r\n\r\n" ++ body ++ go "\r\n") := by
  have hidem := ToUpper_idem mapUpper hlib s
  have hloop : ∀ (l : List GoString),
      validateLoop mapUpper s l = validateLoop mapUpper (ToUpper mapUpper s) l := by
    intro l
    induction l with
    | nil => rfl
    | cons m l ih => simp only [validateLoop, hidem, ih]
  have hpf : percentFree ⟨[]⟩ := by decide
  refine ⟨hloop allowedMethods, validateLoop_eq_none mapUpper s allowedMethods, ?_, ?_, ?_, ?_⟩
  · exact (validateLoop_eq_none mapUpper _ allowedMethods).2
      (by rw [ToUpper_ascii mapUpper _ (by decide)]; decide)
  · intro slow method uri host body body2 hs hm
    have : ¬ method = MethodPost := hm
    simp only [makePayload, this, if_false]
  · intro slow uri host
    rw [makePayload_closed slow _ uri host _ ⟨[]⟩ hpf]
    have e1 : payloadTail (go "post") (go "a=1") = go "\r\n" := by decide
    have e2 : go "post" ++ go " " = go "post " := by decide
    have e3 : go "\r\n\r\n" = go "\r\n" ++ go "\r\n" := by decide
    unfold payloadSpec
    rw [e1, e2, e3]
    simp
  · intro slow uri host body
    rw [makePayload_closed slow _ uri host _ ⟨[]⟩ hpf]
    have e2 : go "POST" ++ go " " = go "POST " := by decide
    unfold payloadSpec payloadTail
    rw [if_pos rfl, e2]
    simp

/-- Witness for C20: the string `post`, with a case mapping that leaves every
string with a byte from `0x80` on as it is. -/
theorem validateMethod_upper_witness :
    validateMethod noMapUpper (go "post")
      = validateMethod noMapUpper (ToUpper noMapUpper (go "post")) :=
  (validateMethod_upper noMapUpper (go "post")
    (fun t ht => by simp only [ToUpper, noMapUpper, ht, Bool.false_eq_true, if_false])).1

end Curl
